import Mathlib

/-! # basic_calculator: expression evaluator and click controller

A shallow embedding of `calc.cpp`.

* `std::string` is a Lean `String`; the global variables `input` and `result`
  are the two fields of `State`, the global vector `buttons` is the list
  `createButtons`.
* `int` click coordinates are `Int` (the only arithmetic on them is
  `rect.x + BUTTON_WIDTH`, at most `370 + 80`, so no overflow can occur).
* `double` is `Double`, an IEEE-754 binary64 value kept as sign, integer
  significand and binary exponent; every operation is exact integer arithmetic
  followed by one rounding to nearest, ties to even.
* `std::stringstream` is `StringStream`: the unread characters together with
  the `failbit` and `eofbit` flags.  `operator>>` for `double` is `std::num_get`
  in the classic locale: a decimal field is accumulated, converted as by
  `strtod`, and a value beyond the range of `double` sets `failbit`;
  `operator>>` for `char` reads one character; both skip white space first.
* `std::to_string(double)` is `to_string`, the `"%f"` conversion.

The definitions come first: the program, then the evaluator and the
controller as the specification words them.  The lemmas and the theorems on
the claims follow.
-/

namespace Calc

/-! ## Constants of `calc.cpp` -/

def BUTTON_WIDTH : Int := 80
def BUTTON_HEIGHT : Int := 80
def BUTTON_MARGIN : Int := 10

/-! ## `double` -/

/-- A `double`.  `fin neg m e` is the finite value `(-1)^neg * m * 2^e`, kept in
the canonical form of the binary64 encoding: `e = -1074` and `m < 2^52`
(zero and subnormal numbers) or `2^52 ≤ m < 2^53` and `-1074 ≤ e ≤ 971`. -/
inductive Double where
  | fin (neg : Bool) (m : Nat) (e : Int)
  | inf (neg : Bool)
  | nan
deriving DecidableEq, Repr

namespace Double

/-- Positive zero, the value of the literal `0` converted to `double`. -/
def zero : Double := fin false 0 (-1074)

/-- The comparison `d == 0` (true for both signed zeros, false for NaN). -/
def isZero : Double → Bool
  | fin _ m _ => m == 0
  | _ => false

/-- Number of binary digits of `n` minus one (`0` for `n < 2`), by halving. -/
def log2Fuel : Nat → Nat → Nat
  | 0, _ => 0
  | fuel + 1, n => if n < 2 then 0 else log2Fuel fuel (n / 2) + 1

/-- Floor of the binary logarithm of a positive natural number. -/
def ilog2 (n : Nat) : Nat := log2Fuel n n

/-- Floor of the binary logarithm of the positive rational `p / q`. -/
def floorLog2 (p q : Nat) : Int :=
  if q ≤ p then (ilog2 (p / q) : Int) else -((ilog2 ((q - 1) / p) : Int) + 1)

/-- Binary exponent of the last significand bit of the double nearest to
`p / q`: `floorLog2 - 52`, but never below the subnormal exponent. -/
def ulpExp (p q : Nat) : Int := max (floorLog2 p q - 52) (-1074)

/-- Round the quotient `n / d` to the nearest integer, ties to even. -/
def roundHalfEven (n d : Nat) : Nat :=
  let m := n / d
  let r := n % d
  if d < 2 * r ∨ (2 * r = d ∧ m % 2 = 1) then m + 1 else m

/-- The double nearest to `(-1)^neg * p / q` (`q > 0`), ties to even; values
beyond the largest finite double round to infinity. -/
def round (neg : Bool) (p q : Nat) : Double :=
  if p = 0 then fin neg 0 (-1074) else
  let e := ulpExp p q
  let m := roundHalfEven (p * 2 ^ (-e).toNat) (q * 2 ^ e.toNat)
  let (m, e) := if m = 2 ^ 53 then (2 ^ 52, e + 1) else (m, e)
  if 971 < e then inf neg else fin neg m e

/-- The double nearest to the integer `z * 2^e`; an exact zero takes the sign
`zneg`. -/
def roundScaled (zneg : Bool) (z : Int) (e : Int) : Double :=
  if z = 0 then fin zneg 0 (-1074)
  else round (decide (z < 0)) (z.natAbs * 2 ^ e.toNat) (2 ^ (-e).toNat)

/-- Unary minus. -/
def neg : Double → Double
  | fin s m e => fin (!s) m e
  | inf s => inf (!s)
  | nan => nan

/-- The significand as a signed integer. -/
def signed (s : Bool) (m : Nat) : Int := if s then -(m : Int) else (m : Int)

/-- Addition `a + b` in round-to-nearest.  An exact zero sum is `-0` only when
both operands are negative (zeros). -/
def add : Double → Double → Double
  | fin s1 m1 e1, fin s2 m2 e2 =>
    let e := min e1 e2
    roundScaled (s1 && s2)
      (signed s1 m1 * 2 ^ (e1 - e).toNat + signed s2 m2 * 2 ^ (e2 - e).toNat) e
  | fin _ _ _, inf s => inf s
  | inf s, fin _ _ _ => inf s
  | inf s1, inf s2 => if s1 = s2 then inf s1 else nan
  | _, _ => nan

/-- Subtraction `a - b`. -/
def sub (a b : Double) : Double := add a (neg b)

/-- Multiplication `a * b`. -/
def mul : Double → Double → Double
  | fin s1 m1 e1, fin s2 m2 e2 => roundScaled (xor s1 s2) (signed (xor s1 s2) (m1 * m2)) (e1 + e2)
  | fin s1 m1 _, inf s2 => if m1 = 0 then nan else inf (xor s1 s2)
  | inf s1, fin s2 m2 _ => if m2 = 0 then nan else inf (xor s1 s2)
  | inf s1, inf s2 => inf (xor s1 s2)
  | _, _ => nan

/-- Division `a / b`. -/
def div : Double → Double → Double
  | fin s1 m1 e1, fin s2 m2 e2 =>
    if m2 = 0 then (if m1 = 0 then nan else inf (xor s1 s2))
    else round (xor s1 s2) (m1 * 2 ^ (e1 - e2).toNat) (m2 * 2 ^ (e2 - e1).toNat)
  | fin s1 _ _, inf s2 => fin (xor s1 s2) 0 (-1074)
  | inf s1, fin s2 _ _ => inf (xor s1 s2)
  | _, _ => nan

end Double

/-! ## `std::to_string(double)` -/

/-- The six digits of `f < 10^6`, most significant first. -/
def fracDigits (f : Nat) : List Char :=
  [5, 4, 3, 2, 1, 0].map (fun k => Nat.digitChar (f / 10 ^ k % 10))

/-- The conversion `std::to_string(double)`, that is `sprintf` with `"%f"`: the
value rounded (to nearest, ties to even) to six digits after the decimal
point.  The sign of a NaN is not kept in `Double` and is not printed. -/
def to_string : Double → String
  | Double.nan => "nan"
  | Double.inf s => if s then "-inf" else "inf"
  | Double.fin s m e =>
    let n := Double.roundHalfEven (m * 2 ^ e.toNat * 10 ^ 6) (2 ^ (-e).toNat)
    (if s then "-" else "") ++ Nat.repr (n / 10 ^ 6)
      ++ String.mk ('.' :: fracDigits (n % 10 ^ 6))

/-! ## `std::stringstream` extraction -/

/-- An input string stream: the characters not yet read and two state flags
(`badbit` is never set on an in-memory stream). -/
structure StringStream where
  buf : List Char
  failbit : Bool
  eofbit : Bool
deriving DecidableEq, Repr

/-- The predicate `isspace` of the classic locale. -/
def isspace (c : Char) : Bool :=
  c = ' ' || c = '\t' || c = '\n' || c = '\x0b' || c = '\x0c' || c = '\r'

/-- Drop leading white space. -/
def skipws : List Char → List Char
  | [] => []
  | c :: cs => if isspace c then skipws cs else c :: cs

/-- Accumulation of a floating-point field by `num_get` (stage 2, classic
locale).  Returns the accumulated field and the unread characters.  The flags
record that a digit, the decimal point, the exponent letter have been seen,
and that the previous character was the exponent letter (a sign is accepted
there). -/
def floatField (mant dec sci afterE : Bool) : List Char → List Char × List Char
  | [] => ([], [])
  | c :: cs =>
    if afterE && (c = '+' || c = '-') then
      let r := floatField mant dec sci false cs
      (c :: r.1, r.2)
    else if c.isDigit then
      let r := floatField true dec sci false cs
      (c :: r.1, r.2)
    else if c = '.' && !dec && !sci then
      let r := floatField mant true sci false cs
      ('.' :: r.1, r.2)
    else if (c = 'e' || c = 'E') && !sci && mant then
      let r := floatField mant dec true true cs
      ('e' :: r.1, r.2)
    else ([], c :: cs)

/-- The whole field: an optional sign, then `floatField`. -/
def extractFloat : List Char → List Char × List Char
  | [] => ([], [])
  | c :: cs =>
    if c = '+' || c = '-' then
      let r := floatField false false false false cs
      (c :: r.1, r.2)
    else floatField false false false false (c :: cs)

/-- Value of a string of decimal digits. -/
def digitsVal (ds : List Char) : Nat :=
  ds.foldl (fun n c => 10 * n + (c.toNat - 48)) 0

/-- Split off an optional sign; `true` for `-`. -/
def splitSign : List Char → Bool × List Char
  | [] => (false, [])
  | c :: cs => if c = '-' then (true, cs) else if c = '+' then (false, cs) else (false, c :: cs)

/-- A decimal floating-point literal: the value `(-1)^neg * mant * 10^exp10`. -/
structure Decimal where
  neg : Bool
  mant : Nat
  exp10 : Int
deriving DecidableEq, Repr

/-- The conversion `strtod` applied to an accumulated field, required to use
the whole field: `none` when the field is not entirely a decimal literal
`[sign] digits [. digits] [e [sign] digits]` with at least one digit in the
significand and, after an `e`, at least one in the exponent. -/
def strtod (s : List Char) : Option Decimal :=
  let (neg, s1) := splitSign s
  let ip := s1.takeWhile Char.isDigit
  let s2 := s1.dropWhile Char.isDigit
  let fp := match s2 with
    | '.' :: t => t.takeWhile Char.isDigit
    | _ => []
  let s3 := match s2 with
    | '.' :: t => t.dropWhile Char.isDigit
    | _ => s2
  if ip = [] ∧ fp = [] then none else
  match s3 with
  | [] => some ⟨neg, digitsVal (ip ++ fp), -(fp.length : Int)⟩
  | c :: t =>
    if c = 'e' then
      let (eneg, t1) := splitSign t
      let ed := t1.takeWhile Char.isDigit
      if ed = [] ∨ t1.dropWhile Char.isDigit ≠ [] then none
      else some ⟨neg, digitsVal (ip ++ fp),
        (if eneg then -(digitsVal ed : Int) else (digitsVal ed : Int)) - (fp.length : Int)⟩
    else none

/-- The double nearest to a decimal literal. -/
def Decimal.toDouble (d : Decimal) : Double :=
  Double.round d.neg (d.mant * 10 ^ d.exp10.toNat) (10 ^ (-d.exp10).toNat)

/-- Conversion of an accumulated field to a `double`: `none` (failbit) when
`strtod` does not use the whole field or the value is out of range. -/
def convertToDouble (field : List Char) : Option Double :=
  match strtod field with
  | none => none
  | some d =>
    match d.toDouble with
    | Double.fin s m e => some (Double.fin s m e)
    | _ => none

namespace StringStream

/-- The test `ss.fail()`. -/
def fail (ss : StringStream) : Bool := ss.failbit

/-- The test `ss.eof()`. -/
def eof (ss : StringStream) : Bool := ss.eofbit

/-- The test `ss.good()`. -/
def good (ss : StringStream) : Bool := !ss.failbit && !ss.eofbit

/-- The extraction `ss >> x` for a `double`.  A stream that is not good only
gets its failbit set; otherwise white space is skipped (failbit and eofbit if
nothing follows), a field is accumulated and converted, and eofbit is set when
the accumulation reached the end of the stream. -/
def extractDouble (ss : StringStream) : StringStream × Option Double :=
  if !ss.good then ({ ss with failbit := true }, none) else
  match skipws ss.buf with
  | [] => (⟨[], true, true⟩, none)
  | c :: cs =>
    let r := extractFloat (c :: cs)
    let v := convertToDouble r.1
    (⟨r.2, v.isNone, r.2.isEmpty⟩, v)

/-- The extraction `ss >> c` for a `char`: skip white space, read one
character. -/
def extractChar (ss : StringStream) : StringStream × Option Char :=
  if !ss.good then ({ ss with failbit := true }, none) else
  match skipws ss.buf with
  | [] => (⟨[], true, true⟩, none)
  | c :: cs => (⟨cs, false, false⟩, some c)

end StringStream

/-! ## `evaluateExpression` -/

/-- The function `evaluateExpression` of `calc.cpp`.  The three variables
`num1`, `op`, `num2` are `none` while unassigned, which can only be the case
when `ss.fail()` holds. -/
def evaluateExpression (expr : String) : String :=
  let ss : StringStream := ⟨expr.data, false, false⟩
  let r1 := ss.extractDouble
  let r2 := r1.1.extractChar
  let r3 := r2.1.extractDouble
  if r3.1.fail || !r3.1.eof then "Err" else
  match r1.2, r2.2, r3.2 with
  | some num1, some op, some num2 =>
    if op = '+' then to_string (Double.add num1 num2)
    else if op = '-' then to_string (Double.sub num1 num2)
    else if op = '*' then to_string (Double.mul num1 num2)
    else if op = '/' then
      to_string (if !num2.isZero then Double.div num1 num2 else Double.zero)
    else "Err"
  | _, _, _ => "Err"

/-! ## Buttons and the click handler -/

/-- The `SDL_Rect` structure. -/
structure SDL_Rect where
  x : Int
  y : Int
  w : Int
  h : Int
deriving DecidableEq, Repr

/-- The `Button` structure. -/
structure Button where
  rect : SDL_Rect
  label : String
deriving DecidableEq, Repr

/-- The local vector `labels` of `createButtons`. -/
def labels : List String :=
  ["7", "8", "9", "/",
   "4", "5", "6", "*",
   "1", "2", "3", "-",
   "C", "0", "=", "+"]

/-- The loop of `createButtons` from index `i` on, over the labels still to be
placed. -/
def createButtonsFrom (startX startY : Int) (i : Nat) : List String → List Button
  | [] => []
  | l :: ls =>
    { rect :=
        { x := startX + ((i % 4 : Nat) : Int) * (BUTTON_WIDTH + BUTTON_MARGIN)
          y := startY + ((i / 4 : Nat) : Int) * (BUTTON_HEIGHT + BUTTON_MARGIN)
          w := BUTTON_WIDTH
          h := BUTTON_HEIGHT }
      label := l } :: createButtonsFrom startX startY (i + 1) ls

/-- The content of the global vector `buttons` after `createButtons()`. -/
def createButtons : List Button := createButtonsFrom 20 150 0 labels

/-- The global variables `input` and `result`. -/
structure State where
  input : String
  result : String
deriving DecidableEq, Repr

/-- The condition of the `if` in `handleButtonClick`. -/
def hit (btn : Button) (x y : Int) : Bool :=
  decide (x ≥ btn.rect.x) && decide (x ≤ btn.rect.x + BUTTON_WIDTH) &&
  decide (y ≥ btn.rect.y) && decide (y ≤ btn.rect.y + BUTTON_HEIGHT)

/-- The body of the loop of `handleButtonClick` for one button. -/
def clickButton (x y : Int) (st : State) (btn : Button) : State :=
  if hit btn x y then
    let val := btn.label
    if val = "=" then { st with result := evaluateExpression st.input }
    else if val = "C" then { input := "", result := "" }
    else { st with input := st.input ++ val }
  else st

/-- The function `handleButtonClick`: the loop runs over every button. -/
def handleButtonClick (buttons : List Button) (x y : Int) (st : State) : State :=
  buttons.foldl (clickButton x y) st

/-- The state at program start. -/
def initialState : State := { input := "", result := "" }

/-- The effect of a sequence of `SDL_MOUSEBUTTONDOWN` events, each passed to
`handleButtonClick` by `handleEvents`. -/
def run (st : State) (clicks : List (Int × Int)) : State :=
  clicks.foldl (fun s c => handleButtonClick createButtons c.1 c.2 s) st

/-! ## The controller as the specification words it -/

/-- Labels of the digit and operator buttons. -/
def appendLabels : List String :=
  ["0", "1", "2", "3", "4", "5", "6", "7", "8", "9", "+", "-", "*", "/"]

/-- The transition of a button label (specification, section 4.2): a digit or
operator label is appended to InputBuffer, `C` clears both texts, `=` stores
the evaluation of InputBuffer into ResultText. -/
def transition (label : String) (st : State) : State :=
  if label ∈ appendLabels then { input := st.input ++ label, result := st.result }
  else if label = "C" then { input := "", result := "" }
  else if label = "=" then { input := st.input, result := evaluateExpression st.input }
  else st

/-- Click resolution (specification, section 4.2): the first catalog entry
whose hit region, inclusive on all four edges, contains the point. -/
def resolveClick (buttons : List Button) (x y : Int) : Option Button :=
  buttons.find? (fun b =>
    decide (b.rect.x ≤ x ∧ x ≤ b.rect.x + 80 ∧ b.rect.y ≤ y ∧ y ≤ b.rect.y + 80))

/-- The controller step of the specification: the transition of the resolved
button, nothing when the click resolves to no button. -/
def clickSpec (buttons : List Button) (x y : Int) (st : State) : State :=
  match resolveClick buttons x y with
  | none => st
  | some b => transition b.label st

/-- A click at `(x, y)` presses the button labelled `label`. -/
def Presses (label : String) (x y : Int) : Prop :=
  ∃ b ∈ createButtons, b.label = label ∧ hit b x y = true

/-- The content InputBuffer had at the most recent `=` press after which no
`C` press happened, along the clicks applied from state `st`; `p` is that
content before these clicks. -/
def lastEvaluated : State → Option String → List (Int × Int) → Option String
  | _, p, [] => p
  | st, p, c :: cs =>
    lastEvaluated (handleButtonClick createButtons c.1 c.2 st)
      (match (resolveClick createButtons c.1 c.2).map Button.label with
        | none => p
        | some l => if l = "=" then some st.input else if l = "C" then none else p)
      cs

/-- Two hit regions have no point in common. -/
def Apart (a b : Button) : Prop :=
  a.rect.x + 80 < b.rect.x ∨ b.rect.x + 80 < a.rect.x ∨
    a.rect.y + 80 < b.rect.y ∨ b.rect.y + 80 < a.rect.y

instance (a b : Button) : Decidable (Apart a b) := by
  unfold Apart; infer_instance

/-- The invariant linking ResultText to the content evaluated last. -/
def ResultInv (st : State) (p : Option String) : Prop :=
  (p = none ∧ st.result = "") ∨
    ∃ q, p = some q ∧ st.result = evaluateExpression q ∧ q.data <+: st.input.data

/-! ## The evaluator as the specification words it -/

/-- Reading a floating-point number after skipping leading white space
(specification, section 4.1): the value and the characters left unread,
`none` when no number is obtained. -/
def readNumber (s : List Char) : Option (Double × List Char) :=
  match convertToDouble (extractFloat (skipws s)).1 with
  | none => none
  | some v => some (v, (extractFloat (skipws s)).2)

/-- Reading a single character after skipping leading white space. -/
def readChar (s : List Char) : Option (Char × List Char) :=
  match skipws s with
  | [] => none
  | c :: cs => some (c, cs)

/-- Reading a number, a character and a number, in that order: the three
tokens and the characters left unconsumed after the second number. -/
def readTokens (s : List Char) : Option (Double × Char × Double × List Char) :=
  match readNumber s with
  | none => none
  | some (a, s1) =>
    match readChar s1 with
    | none => none
    | some (c, s2) =>
      match readNumber s2 with
      | none => none
      | some (b, s3) => some (a, c, b, s3)

/-- The four supported operator symbols. -/
def operators : List Char := ['+', '-', '*', '/']

/-- The result of `number1 operator number2` (specification, section 4.1);
a division by zero gives `0`. -/
def compute (a : Double) (op : Char) (b : Double) : Double :=
  if op = '+' then Double.add a b
  else if op = '-' then Double.sub a b
  else if op = '*' then Double.mul a b
  else if b.isZero then Double.zero else Double.div a b

/-- The switch of `evaluateExpression` on parsed operands. -/
def switchResult (a : Double) (op : Char) (b : Double) : String :=
  if op = '+' then to_string (Double.add a b)
  else if op = '-' then to_string (Double.sub a b)
  else if op = '*' then to_string (Double.mul a b)
  else if op = '/' then
    to_string (if !b.isZero then Double.div a b else Double.zero)
  else "Err"

/-- A decimal numeral: an optional sign, then digits with at most one decimal
point among them and at least one digit. -/
def isNumeral (s : List Char) : Bool :=
  ((splitSign s).2.all fun c => c.isDigit || c = '.') &&
    (splitSign s).2.any Char.isDigit && decide ((splitSign s).2.count '.' ≤ 1)

/-- A non-empty string of decimal digits. -/
def isDigits (s : List Char) : Bool := s.all Char.isDigit && !s.isEmpty

/-- The `double` read from a string of decimal digits, negated when `neg`. -/
def digitsToDouble (neg : Bool) (ds : List Char) : Double :=
  Double.round neg (digitsVal ds) 1

/-- The least magnitude that rounds beyond the largest finite `double`:
`DBL_MAX` plus half a unit in its last place. -/
def overflowThreshold : Nat := 2 ^ 1024 - 2 ^ 970

/-- What may follow a numeral: the end of the input, an operator symbol or
white space. -/
def Stops (tail : List Char) : Prop :=
  tail = [] ∨ ∃ c rest, tail = c :: rest ∧ (c ∈ operators ∨ isspace c = true)

/-- The exact integer result of `a op b` for `op` among `+ - *`. -/
def exactResult (op : Char) (a b : Int) : Int :=
  if op = '+' then a + b else if op = '-' then a - b else a * b

/-- A string of white space only. -/
def isSpaces (w : List Char) : Bool := w.all isspace

/-- An integer numeral: an optional sign, then a non-empty string of digits. -/
def isInteger (s : List Char) : Bool := isDigits (splitSign s).2

/-- The integer an integer numeral denotes. -/
def integerVal (s : List Char) : Int :=
  Double.signed (splitSign s).1 (digitsVal (splitSign s).2)

/-- The natural number `n` is a `double` exactly: a significand below `2^53`
times a power of two within the exponent range. -/
def Representable (n : Nat) : Prop :=
  ∃ m e : Nat, m < 2 ^ 53 ∧ e ≤ 971 ∧ n = m * 2 ^ e

/-- The finite double `d` has exactly the integer value `z`. -/
def Double.IsInt (d : Double) (z : Int) : Prop :=
  match d with
  | Double.fin s m e => Double.signed s m * 2 ^ e.toNat = z * 2 ^ (-e).toNat
  | _ => False

/-- The sign of an exact zero result of `a op b` in round-to-nearest IEEE
arithmetic, from the signs of the operands: `true` when the zero is negative
(`(-0) + (-0)`, `(-0) - (+0)`, and a zero product of operands of opposite
signs). -/
def negativeZero (op : Char) (s1 s2 : Bool) : Bool :=
  if op = '+' then s1 && s2 else if op = '-' then s1 && !s2 else xor s1 s2

/-- Fixed notation with exactly six fractional digits: one decimal point,
followed by six digits that end the text. -/
def FixedSix (out : String) : Prop :=
  ∃ ip fp, out.data = ip ++ '.' :: fp ∧ '.' ∉ ip ∧ ip ≠ [] ∧ fp.length = 6 ∧
    ∀ c ∈ fp, c.isDigit = true

/-! ## Stream extraction: helper lemmas -/

theorem extractDouble_failbit (ss : StringStream) (h : ss.failbit = true) :
    (ss.extractDouble).1.failbit = true := by
  simp [StringStream.extractDouble, StringStream.good, h]

theorem extractChar_failbit (ss : StringStream) (h : ss.failbit = true) :
    (ss.extractChar).1.failbit = true := by
  simp [StringStream.extractChar, StringStream.good, h]

theorem extractDouble_eofbit (ss : StringStream) (h : ss.eofbit = true) :
    (ss.extractDouble).1.failbit = true := by
  simp [StringStream.extractDouble, StringStream.good, h]

theorem extractChar_eofbit (ss : StringStream) (h : ss.eofbit = true) :
    (ss.extractChar).1.failbit = true := by
  simp [StringStream.extractChar, StringStream.good, h]

theorem convertToDouble_nil : convertToDouble [] = none := by decide

theorem readNumber_nil : readNumber [] = none := by decide

theorem extractDouble_none (s : List Char) (h : readNumber s = none) :
    (StringStream.extractDouble ⟨s, false, false⟩).1.failbit = true := by
  unfold readNumber at h
  unfold StringStream.extractDouble
  simp only [StringStream.good, Bool.not_false, Bool.and_self, Bool.not_true,
    Bool.false_eq_true, if_false]
  cases hs : skipws s with
  | nil => rfl
  | cons c cs =>
    rw [hs] at h
    cases hc : convertToDouble (extractFloat (c :: cs)).1 with
    | none => simp [hc]
    | some v => rw [hc] at h; cases h

theorem extractDouble_some (s : List Char) (v : Double) (rest : List Char)
    (h : readNumber s = some (v, rest)) :
    StringStream.extractDouble ⟨s, false, false⟩ = (⟨rest, false, rest.isEmpty⟩, some v) := by
  unfold readNumber at h
  unfold StringStream.extractDouble
  simp only [StringStream.good, Bool.not_false, Bool.and_self, Bool.not_true,
    Bool.false_eq_true, if_false]
  cases hs : skipws s with
  | nil =>
    rw [hs] at h
    simp [extractFloat, convertToDouble_nil] at h
  | cons c cs =>
    rw [hs] at h
    cases hc : convertToDouble (extractFloat (c :: cs)).1 with
    | none => rw [hc] at h; cases h
    | some w =>
      rw [hc] at h
      simp only [Option.some.injEq, Prod.mk.injEq] at h
      obtain ⟨rfl, rfl⟩ := h
      simp [hc]

theorem extractChar_none (s : List Char) (h : readChar s = none) :
    (StringStream.extractChar ⟨s, false, false⟩).1.failbit = true := by
  unfold readChar at h
  unfold StringStream.extractChar
  simp only [StringStream.good, Bool.not_false, Bool.and_self, Bool.not_true,
    Bool.false_eq_true, if_false]
  cases hs : skipws s with
  | nil => rfl
  | cons c cs => rw [hs] at h; cases h

theorem extractChar_some (s : List Char) (c : Char) (rest : List Char)
    (h : readChar s = some (c, rest)) :
    StringStream.extractChar ⟨s, false, false⟩ = (⟨rest, false, false⟩, some c) := by
  unfold readChar at h
  unfold StringStream.extractChar
  simp only [StringStream.good, Bool.not_false, Bool.and_self, Bool.not_true,
    Bool.false_eq_true, if_false]
  cases hs : skipws s with
  | nil => rw [hs] at h; cases h
  | cons d ds =>
    rw [hs] at h
    simp only [Option.some.injEq, Prod.mk.injEq] at h
    simp [h.1, h.2]

theorem readChar_nil : readChar [] = none := rfl

/-- The evaluator in terms of the three tokens read. -/
theorem evaluateExpression_eq (s : String) :
    evaluateExpression s =
      match readTokens s.data with
      | none => "Err"
      | some (a, op, b, rest) => if rest = [] then switchResult a op b else "Err" := by
  unfold evaluateExpression readTokens
  simp only [StringStream.fail, StringStream.eof]
  cases h1 : readNumber s.data with
  | none =>
    have f1 := extractDouble_none _ h1
    have f2 := extractChar_failbit _ f1
    have f3 := extractDouble_failbit _ f2
    simp [f3]
  | some r1 =>
    obtain ⟨a, s1⟩ := r1
    rw [extractDouble_some _ _ _ h1]
    simp only
    cases s1 with
    | nil =>
      have f2 := extractChar_eofbit ⟨[], false, true⟩ rfl
      have f3 := extractDouble_failbit _ f2
      simp [f3, readChar_nil]
    | cons d ds =>
      simp only [List.isEmpty_cons]
      cases h2 : readChar (d :: ds) with
      | none =>
        have f2 := extractChar_none _ h2
        have f3 := extractDouble_failbit _ f2
        simp [f3]
      | some r2 =>
        obtain ⟨op, s2⟩ := r2
        rw [extractChar_some _ _ _ h2]
        simp only
        cases h3 : readNumber s2 with
        | none =>
          have f3 := extractDouble_none _ h3
          simp [f3]
        | some r3 =>
          obtain ⟨b, s3⟩ := r3
          rw [extractDouble_some _ _ _ h3]
          cases s3 with
          | nil => simp [switchResult]
          | cons e es => simp

/-! ## `to_string`: helper lemmas -/

theorem to_string_fin_data (s : Bool) (m : Nat) (e : Int) :
    (to_string (Double.fin s m e)).data =
      ((if s then "-" else "") ++
          Nat.repr (Double.roundHalfEven (m * 2 ^ e.toNat * 10 ^ 6) (2 ^ (-e).toNat) / 10 ^ 6)).data
        ++ '.' :: fracDigits
          (Double.roundHalfEven (m * 2 ^ e.toNat * 10 ^ 6) (2 ^ (-e).toNat) % 10 ^ 6) := by
  simp [to_string, String.data_append]

theorem to_string_ne_err (d : Double) : to_string d ≠ "Err" := by
  cases d with
  | nan => decide
  | inf s => cases s <;> decide
  | fin s m e =>
    intro h
    have h1 := to_string_fin_data s m e
    rw [h] at h1
    have h2 : '.' ∈ ("Err" : String).data := by
      rw [h1]; simp
    revert h2
    decide

theorem switchResult_eq (a b : Double) (op : Char) (h : op ∈ operators) :
    switchResult a op b = to_string (compute a op b) := by
  simp only [operators, List.mem_cons, List.mem_singleton, List.not_mem_nil, or_false] at h
  rcases h with rfl | rfl | rfl | rfl
  · simp [switchResult, compute]
  · simp [switchResult, compute]
  · simp [switchResult, compute]
  · unfold switchResult compute
    cases hz : b.isZero <;> simp

theorem switchResult_err (a b : Double) (op : Char) (h : op ∉ operators) :
    switchResult a op b = "Err" := by
  simp only [operators, List.mem_cons, List.mem_singleton, List.not_mem_nil, or_false,
    not_or] at h
  simp [switchResult, h.1, h.2.1, h.2.2.1, h.2.2.2]

theorem evaluateExpression_of_tokens (s : String) (a b : Double) (op : Char)
    (h : readTokens s.data = some (a, op, b, [])) (ho : op ∈ operators) :
    evaluateExpression s = to_string (compute a op b) := by
  rw [evaluateExpression_eq, h]
  simp [switchResult_eq a b op ho]

/-! ## Claims on the evaluator -/

/-- C1: `evaluateExpression s` is `"Err"` exactly when reading a number, a
character and a number from `s` (white space skipped before each) fails to
obtain all three tokens, or leaves a character unconsumed after the second
number, or the character read is not one of `+ - * /`; in every other case the
result is a formatted number.  `"5 +"`, `"5 + 3 + 2"`, `"abc + 1"` and
`"5 & 3"` give `"Err"`. -/
theorem evaluateExpression_err_iff :
    (∀ s : String, evaluateExpression s = "Err" ↔
      (readTokens s.data = none ∨
        ∃ a op b rest, readTokens s.data = some (a, op, b, rest) ∧
          (rest ≠ [] ∨ op ∉ operators))) ∧
    (∀ s : String, evaluateExpression s ≠ "Err" →
      ∃ a op b, readTokens s.data = some (a, op, b, []) ∧ op ∈ operators ∧
        evaluateExpression s = to_string (compute a op b)) ∧
    evaluateExpression "5 +" = "Err" ∧ evaluateExpression "5 + 3 + 2" = "Err" ∧
    evaluateExpression "abc + 1" = "Err" ∧ evaluateExpression "5 & 3" = "Err" := by
  have key : ∀ s : String, evaluateExpression s ≠ "Err" →
      ∃ a op b, readTokens s.data = some (a, op, b, []) ∧ op ∈ operators ∧
        evaluateExpression s = to_string (compute a op b) := by
    intro s hne
    rw [evaluateExpression_eq] at hne
    cases h : readTokens s.data with
    | none => rw [h] at hne; exact absurd rfl hne
    | some t =>
      obtain ⟨a, op, b, rest⟩ := t
      rw [h] at hne
      simp only at hne
      by_cases hr : rest = []
      · subst hr
        by_cases ho : op ∈ operators
        · exact ⟨a, op, b, rfl, ho, evaluateExpression_of_tokens s a b op h ho⟩
        · rw [if_pos rfl, switchResult_err a b op ho] at hne
          exact absurd rfl hne
      · rw [if_neg hr] at hne
        exact absurd rfl hne
  refine ⟨fun s => ⟨fun he => ?_, fun h => ?_⟩, key, by decide!, by decide!, by decide!, by decide!⟩
  · cases h : readTokens s.data with
    | none => exact Or.inl rfl
    | some t =>
      obtain ⟨a, op, b, rest⟩ := t
      refine Or.inr ⟨a, op, b, rest, rfl, ?_⟩
      by_contra hcon
      rw [not_or, not_not, not_not] at hcon
      obtain ⟨hr, ho⟩ := hcon
      subst hr
      rw [evaluateExpression_of_tokens s a b op h ho] at he
      exact to_string_ne_err _ he
  · rw [evaluateExpression_eq]
    rcases h with h | ⟨a, op, b, rest, h, hr | ho⟩
    · rw [h]
    · rw [h]; simp [hr]
    · rw [h]; simp only
      split
      · exact switchResult_err a b op ho
      · rfl

/-- C3: for every input that parses as a first operand, the operator `/` and
a second operand equal to zero, `evaluateExpression` returns `"0.000000"`,
whatever the first operand is. -/
theorem division_by_zero_gives_zero (s : String) (a b : Double)
    (h : readTokens s.data = some (a, '/', b, [])) (hz : b.isZero = true) :
    evaluateExpression s = "0.000000" := by
  rw [evaluateExpression_of_tokens s a b '/' h (by decide)]
  have hc : compute a '/' b = Double.zero := by
    simp [compute, hz]
  rw [hc]
  decide!

theorem division_by_zero_gives_zero_witness :
    evaluateExpression "5/0" = "0.000000" ∧ evaluateExpression "-5/00" = "0.000000" ∧
      evaluateExpression "0/-0" = "0.000000" ∧ evaluateExpression " 7.5 / 0.0" = "0.000000" :=
  ⟨division_by_zero_gives_zero "5/0" (Double.fin false 5629499534213120 (-50))
      (Double.fin false 0 (-1074)) (by decide!) rfl,
    division_by_zero_gives_zero "-5/00" (Double.fin true 5629499534213120 (-50))
      (Double.fin false 0 (-1074)) (by decide!) rfl,
    division_by_zero_gives_zero "0/-0" (Double.fin false 0 (-1074))
      (Double.fin true 0 (-1074)) (by decide!) rfl,
    division_by_zero_gives_zero " 7.5 / 0.0" (Double.fin false 8444249301319680 (-50))
      (Double.fin false 0 (-1074)) (by decide!) rfl⟩

/-! ## Numerals: helper lemmas -/

theorem isspace_eq_false (c : Char)
    (h : c.isDigit = true ∨ c = '.' ∨ c = '+' ∨ c = '-' ∨ c = '*' ∨ c = '/') :
    isspace c = false := by
  by_contra hc
  rw [Bool.not_eq_false] at hc
  simp only [isspace, Bool.or_eq_true, decide_eq_true_eq] at hc
  rcases hc with ((((rfl | rfl) | rfl) | rfl) | rfl) | rfl <;> revert h <;> decide

theorem isDigit_not_special (c : Char) (h : c.isDigit = true) :
    c ≠ '+' ∧ c ≠ '-' ∧ c ≠ '.' ∧ c ≠ 'e' ∧ c ≠ 'E' := by
  refine ⟨?_, ?_, ?_, ?_, ?_⟩ <;> (rintro rfl; revert h; decide)

theorem isspace_cases (c : Char) (h : isspace c = true) :
    c = ' ' ∨ c = '\t' ∨ c = '\n' ∨ c = '\x0b' ∨ c = '\x0c' ∨ c = '\r' := by
  simp only [isspace, Bool.or_eq_true, decide_eq_true_eq] at h
  tauto

theorem floatField_stop (mant dec : Bool) (tail : List Char) (h : Stops tail) :
    floatField mant dec false false tail = ([], tail) := by
  rcases h with rfl | ⟨op, rest, rfl, ho | hsp⟩
  · rfl
  · simp only [operators, List.mem_cons, List.mem_singleton, List.not_mem_nil, or_false] at ho
    rcases ho with rfl | rfl | rfl | rfl <;> simp [floatField]
  · rcases isspace_cases op hsp with rfl | rfl | rfl | rfl | rfl | rfl <;> simp [floatField]

theorem skipws_spaces (w rest : List Char) (h : isSpaces w = true) :
    skipws (w ++ rest) = skipws rest := by
  induction w with
  | nil => rfl
  | cons c cs ih =>
    simp only [isSpaces, List.all_cons, Bool.and_eq_true] at h
    rw [List.cons_append]
    simp only [skipws, h.1, if_true]
    exact ih (by simpa [isSpaces] using h.2)

theorem stops_spaces_operator (w rest : List Char) (op : Char) (hw : isSpaces w = true)
    (ho : op ∈ operators) : Stops (w ++ op :: rest) := by
  cases w with
  | nil => exact Or.inr ⟨op, rest, rfl, Or.inl ho⟩
  | cons c cs =>
    simp only [isSpaces, List.all_cons, Bool.and_eq_true] at hw
    exact Or.inr ⟨c, cs ++ op :: rest, rfl, Or.inr hw.1⟩

theorem floatField_body (body : List Char) :
    ∀ (mant dec : Bool) (tail : List Char),
      (∀ c ∈ body, c.isDigit = true ∨ c = '.') →
      body.count '.' + (if dec then 1 else 0) ≤ 1 →
      Stops tail →
      floatField mant dec false false (body ++ tail) = (body, tail) := by
  induction body with
  | nil =>
    intro mant dec tail _ _ ht
    exact floatField_stop mant dec tail ht
  | cons c body ih =>
    intro mant dec tail hall hcount ht
    have hc := hall c (List.mem_cons_self _ _)
    have hall' : ∀ c ∈ body, c.isDigit = true ∨ c = '.' :=
      fun d hd => hall d (List.mem_cons_of_mem _ hd)
    rw [List.cons_append]
    by_cases hd : c.isDigit = true
    · have hne := isDigit_not_special c hd
      have hcount' : body.count '.' + (if dec then 1 else 0) ≤ 1 := by
        rw [List.count_cons_of_ne (Ne.symm hne.2.2.1)] at hcount
        exact hcount
      unfold floatField
      simp only [Bool.false_and, Bool.false_eq_true, if_false, hd, if_true]
      rw [ih true dec tail hall' hcount' ht]
    · have hdot : c = '.' := by
        rcases hc with h | h
        · exact absurd h hd
        · exact h
      subst hdot
      rw [List.count_cons_self] at hcount
      have hdec : dec = false := by
        cases dec with
        | false => rfl
        | true => simp at hcount
      subst hdec
      have hcount' : body.count '.' + (if true then 1 else 0) ≤ 1 := by
        simp at hcount ⊢
        omega
      unfold floatField
      simp only [Bool.false_and, Bool.false_eq_true, if_false]
      have h1 : ('.' : Char).isDigit = false := by decide
      simp only [h1, Bool.false_eq_true, if_false]
      simp only [decide_True, Bool.not_false, Bool.and_self, if_true]
      rw [ih mant true tail hall' hcount' ht]

theorem splitSign_cases (s : List Char) :
    (∃ cs, s = '-' :: cs ∧ splitSign s = (true, cs)) ∨
    (∃ cs, s = '+' :: cs ∧ splitSign s = (false, cs)) ∨
    (splitSign s = (false, s) ∧ ∀ c ∈ s.head?, c ≠ '+' ∧ c ≠ '-') := by
  cases s with
  | nil => right; right; exact ⟨rfl, by simp⟩
  | cons c cs =>
    by_cases h1 : c = '-'
    · left; subst h1; exact ⟨cs, rfl, by simp [splitSign]⟩
    · by_cases h2 : c = '+'
      · right; left; subst h2; exact ⟨cs, rfl, by simp [splitSign]⟩
      · right; right
        exact ⟨by simp [splitSign, h1, h2], by simp [h1, h2]⟩

theorem isNumeral_body (s : List Char) (h : isNumeral s = true) :
    (∀ c ∈ (splitSign s).2, c.isDigit = true ∨ c = '.') ∧ (splitSign s).2 ≠ [] ∧
      (splitSign s).2.count '.' ≤ 1 := by
  unfold isNumeral at h
  simp only [Bool.and_eq_true, List.all_eq_true, Bool.or_eq_true, decide_eq_true_eq,
    List.any_eq_true] at h
  obtain ⟨⟨h1, c, hc, _⟩, h3⟩ := h
  exact ⟨h1, List.ne_nil_of_mem hc, h3⟩

/-- A numeral followed by the end of the input or by an operator symbol is
accumulated whole, and nothing more. -/
theorem extractFloat_numeral (a tail : List Char) (h : isNumeral a = true) (ht : Stops tail) :
    extractFloat (a ++ tail) = (a, tail) ∧ skipws (a ++ tail) = a ++ tail := by
  obtain ⟨hall, hne, hcount⟩ := isNumeral_body a h
  rcases splitSign_cases a with ⟨cs, rfl, hs⟩ | ⟨cs, rfl, hs⟩ | ⟨hs, hhead⟩
  · rw [hs] at hall hcount
    constructor
    · rw [List.cons_append]
      unfold extractFloat
      simp only [Char.reduceEq, decide_False, decide_True, Bool.or_true, if_true]
      rw [floatField_body cs false false tail hall (by simpa using hcount) ht]
    · rw [List.cons_append]
      unfold skipws
      rw [isspace_eq_false '-' (by decide)]
      simp
  · rw [hs] at hall hcount
    constructor
    · rw [List.cons_append]
      unfold extractFloat
      simp only [Char.reduceEq, decide_False, decide_True, Bool.true_or, if_true]
      rw [floatField_body cs false false tail hall (by simpa using hcount) ht]
    · rw [List.cons_append]
      unfold skipws
      rw [isspace_eq_false '+' (by decide)]
      simp
  · rw [hs] at hall hcount hne
    cases a with
    | nil => exact absurd rfl hne
    | cons c cs =>
      have hc := hhead c (by simp)
      have hcd := hall c (List.mem_cons_self _ _)
      constructor
      · have := floatField_body (c :: cs) false false tail hall (by simpa using hcount) ht
        rw [List.cons_append] at this ⊢
        unfold extractFloat
        simp only [hc.1, hc.2, decide_False, Bool.or_self, Bool.false_eq_true, if_false]
        exact this
      · rw [List.cons_append]
        unfold skipws
        rw [isspace_eq_false c (by tauto)]
        simp

theorem readNumber_numeral (w a tail : List Char) (x : Double) (hw : isSpaces w = true)
    (h : isNumeral a = true) (ht : Stops tail) (hx : convertToDouble a = some x) :
    readNumber (w ++ (a ++ tail)) = some (x, tail) := by
  obtain ⟨h1, h2⟩ := extractFloat_numeral a tail h ht
  unfold readNumber
  rw [skipws_spaces w _ hw, h2, h1]
  simp [hx]

theorem readChar_operator (w : List Char) (op : Char) (rest : List Char)
    (hw : isSpaces w = true) (ho : op ∈ operators) :
    readChar (w ++ op :: rest) = some (op, rest) := by
  have hs : isspace op = false := by
    apply isspace_eq_false
    simp only [operators, List.mem_cons, List.mem_singleton, List.not_mem_nil, or_false] at ho
    tauto
  unfold readChar
  rw [skipws_spaces w _ hw]
  simp [skipws, hs]

/-- Two numerals around an operator symbol, with white space allowed before
each of the three, are read as the three tokens, with nothing left. -/
theorem readTokens_spaced (w0 w1 w2 a b : List Char) (op : Char) (x y : Double)
    (h0 : isSpaces w0 = true) (h1 : isSpaces w1 = true) (h2 : isSpaces w2 = true)
    (ha : isNumeral a = true) (hb : isNumeral b = true) (ho : op ∈ operators)
    (hx : convertToDouble a = some x) (hy : convertToDouble b = some y) :
    readTokens (w0 ++ a ++ w1 ++ op :: (w2 ++ b)) = some (x, op, y, []) := by
  have e : w0 ++ a ++ w1 ++ op :: (w2 ++ b) = w0 ++ (a ++ (w1 ++ op :: (w2 ++ b))) := by
    simp [List.append_assoc]
  have r1 := readNumber_numeral w0 a (w1 ++ op :: (w2 ++ b)) x h0 ha
    (stops_spaces_operator w1 _ op h1 ho) hx
  have r2 := readChar_operator w1 op (w2 ++ b) h1 ho
  have r3 := readNumber_numeral w2 b [] y h2 hb (Or.inl rfl) hy
  rw [List.append_nil] at r3
  rw [e]
  simp [readTokens, r1, r2, r3]

theorem readTokens_numerals (a b : List Char) (op : Char) (x y : Double)
    (ha : isNumeral a = true) (hb : isNumeral b = true) (ho : op ∈ operators)
    (hx : convertToDouble a = some x) (hy : convertToDouble b = some y) :
    readTokens (a ++ op :: b) = some (x, op, y, []) := by
  have h := readTokens_spaced [] [] [] a b op x y rfl rfl rfl ha hb ho hx hy
  simpa using h

/-! ## Rounding: helper lemmas -/

namespace Double

theorem log2Fuel_spec : ∀ fuel n : Nat, n ≤ fuel → 1 ≤ n →
    2 ^ log2Fuel fuel n ≤ n ∧ n < 2 ^ (log2Fuel fuel n + 1) := by
  intro fuel
  induction fuel with
  | zero => intro n h1 h2; omega
  | succ f ih =>
    intro n h1 h2
    unfold log2Fuel
    by_cases h : n < 2
    · rw [if_pos h]
      simp
      omega
    · rw [if_neg h]
      obtain ⟨i1, i2⟩ := ih (n / 2) (by omega) (by omega)
      rw [pow_succ] at i2
      rw [pow_succ, pow_succ, pow_succ]
      omega

theorem ilog2_spec (n : Nat) (h : 1 ≤ n) : 2 ^ ilog2 n ≤ n ∧ n < 2 ^ (ilog2 n + 1) :=
  log2Fuel_spec n n (le_refl n) h

theorem ilog2_lt (n k : Nat) (h : 1 ≤ n) (hk : n < 2 ^ k) : ilog2 n < k := by
  have h1 := (ilog2_spec n h).1
  exact (Nat.pow_lt_pow_iff_right (by norm_num : 1 < 2)).1 (lt_of_le_of_lt h1 hk)

theorem roundHalfEven_exact (m d : Nat) (hd : 0 < d) : roundHalfEven (m * d) d = m := by
  unfold roundHalfEven
  simp only [Nat.mul_mod_left, Nat.mul_div_cancel m hd]
  rw [if_neg]
  omega

theorem roundHalfEven_scale (n d k : Nat) (hk : 0 < k) :
    roundHalfEven (n * k) (d * k) = roundHalfEven n d := by
  unfold roundHalfEven
  simp only [Nat.mul_div_mul_right n d hk, Nat.mul_mod_mul_right]
  have e1 : d * k < 2 * (n % d * k) ↔ d < 2 * (n % d) := by
    rw [← mul_assoc]
    exact Nat.mul_lt_mul_right hk
  have e2 : 2 * (n % d * k) = d * k ↔ 2 * (n % d) = d := by
    rw [← mul_assoc]
    exact Nat.mul_left_inj (Nat.pos_iff_ne_zero.1 hk)
  simp only [e1, e2]

theorem floorLog2_nat (n k : Nat) (hn : 0 < n) (hk : 0 < k) :
    floorLog2 (n * k) k = (ilog2 n : Int) := by
  unfold floorLog2
  rw [if_pos (Nat.le_mul_of_pos_left k hn), Nat.mul_div_cancel n hk]

theorem round_fin (s : Bool) (p q : Nat) (e : Int) (m : Nat) (hp : p ≠ 0)
    (he : ulpExp p q = e) (hm : roundHalfEven (p * 2 ^ (-e).toNat) (q * 2 ^ e.toNat) = m)
    (hm2 : m ≠ 2 ^ 53) (hle : e ≤ 971) : round s p q = fin s m e := by
  unfold round
  rw [if_neg hp]
  simp only [he, hm, if_neg hm2]
  rw [if_neg (not_lt.2 hle)]

/-- Scaling numerator and denominator of an integer value does not change
its rounding. -/
theorem round_mul_cancel (s : Bool) (n k : Nat) (hn : 0 < n) (hk : 0 < k) :
    round s (n * k) k = round s n 1 := by
  have hu : ulpExp (n * k) k = ulpExp n 1 := by
    unfold ulpExp
    rw [floorLog2_nat n k hn hk]
    have := floorLog2_nat n 1 hn Nat.one_pos
    rw [Nat.mul_one] at this
    rw [this]
  have hr : ∀ a b : Nat, roundHalfEven (n * k * 2 ^ a) (k * 2 ^ b) =
      roundHalfEven (n * 2 ^ a) (1 * 2 ^ b) := by
    intro a b
    rw [← roundHalfEven_scale (n * 2 ^ a) (1 * 2 ^ b) k hk]
    congr 1 <;> ring
  unfold round
  have h1 : n * k ≠ 0 := Nat.pos_iff_ne_zero.1 (Nat.mul_pos hn hk)
  have h2 : n ≠ 0 := Nat.pos_iff_ne_zero.1 hn
  rw [if_neg h1, if_neg h2]
  simp only [hu, hr]

/-- A positive integer below `2^53` is a double, with no rounding. -/
theorem round_nat_small (s : Bool) (n : Nat) (h0 : 0 < n) (h : n < 2 ^ 53) :
    round s n 1 = fin s (n * 2 ^ (52 - ilog2 n)) (-((52 - ilog2 n : Nat) : Int)) := by
  have hL : ilog2 n < 53 := ilog2_lt n 53 h0 h
  have hspec := ilog2_spec n h0
  have hu : ulpExp n 1 = -((52 - ilog2 n : Nat) : Int) := by
    unfold ulpExp
    have := floorLog2_nat n 1 h0 Nat.one_pos
    rw [Nat.mul_one] at this
    rw [this]
    omega
  have e1 : (-(-((52 - ilog2 n : Nat) : Int))).toNat = 52 - ilog2 n := by simp
  have e2 : (-((52 - ilog2 n : Nat) : Int)).toNat = 0 := by simp
  apply round_fin s n 1 _ _ (Nat.pos_iff_ne_zero.1 h0) hu
  · rw [e1, e2]
    simp only [pow_zero, Nat.mul_one]
    have := roundHalfEven_exact (n * 2 ^ (52 - ilog2 n)) 1 Nat.one_pos
    rw [Nat.mul_one] at this
    exact this
  · have hlt : n * 2 ^ (52 - ilog2 n) < 2 ^ 53 := by
      calc n * 2 ^ (52 - ilog2 n) < 2 ^ (ilog2 n + 1) * 2 ^ (52 - ilog2 n) :=
            Nat.mul_lt_mul_of_pos_right hspec.2 (Nat.pow_pos (by norm_num))
        _ = 2 ^ 53 := by
            rw [← pow_add]
            congr 1
            omega
    exact Nat.ne_of_lt hlt
  · omega

/-- An integer below `2^53` is a double `n * 2^k * 2^(-k)`. -/
theorem round_nat_rep (s : Bool) (n : Nat) (h : n < 2 ^ 53) :
    ∃ k : Nat, round s n 1 = fin s (n * 2 ^ k) (-(k : Int)) := by
  rcases Nat.eq_zero_or_pos n with rfl | h0
  · exact ⟨1074, by rw [Nat.zero_mul]; rfl⟩
  · exact ⟨52 - ilog2 n, round_nat_small s n h0 h⟩

end Double

/-! ## Printing integers: helper lemmas -/

theorem fracDigits_zero : fracDigits 0 = ['0', '0', '0', '0', '0', '0'] := by decide

theorem to_string_rep (s : Bool) (n k : Nat) :
    to_string (Double.fin s (n * 2 ^ k) (-(k : Int))) =
      (if s then "-" else "") ++ Nat.repr n ++ ".000000" := by
  have e1 : (-(k : Int)).toNat = 0 := by simp
  have e2 : (-(-(k : Int))).toNat = k := by simp
  have hr : Double.roundHalfEven (n * 2 ^ k * 2 ^ 0 * 10 ^ 6) (2 ^ k) = n * 10 ^ 6 := by
    have := Double.roundHalfEven_exact (n * 10 ^ 6) (2 ^ k) (Nat.pow_pos (by norm_num))
    rw [← this]
    congr 1
    ring
  unfold to_string
  simp only [e1, e2, hr]
  rw [Nat.mul_div_cancel n (by norm_num : 0 < 10 ^ 6), Nat.mul_mod_left, fracDigits_zero]

namespace Double

/-- A natural number below `2^1024 - 2^970` rounds to a finite double. -/
theorem round_nat_finite (s : Bool) (p : Nat) (hp : p < overflowThreshold) :
    ∃ m e, round s p 1 = fin s m e := by
  unfold overflowThreshold at hp
  rcases Nat.eq_zero_or_pos p with rfl | h0
  · exact ⟨0, -1074, rfl⟩
  · have hL : ilog2 p < 1024 := ilog2_lt p 1024 h0 (by omega)
    have hu : ulpExp p 1 = (ilog2 p : Int) - 52 := by
      unfold ulpExp
      have := floorLog2_nat p 1 h0 Nat.one_pos
      rw [Nat.mul_one] at this
      rw [this]
      omega
    unfold round
    rw [if_neg (Nat.pos_iff_ne_zero.1 h0)]
    simp only [hu]
    split_ifs with h1 h2 h3
    · exfalso
      have hL2 : ilog2 p = 1023 := by omega
      rw [hL2] at h1
      have e1 : (-(((1023 : Nat) : Int) - 52)).toNat = 0 := by decide
      have e2 : (((1023 : Nat) : Int) - 52).toNat = 971 := by decide
      rw [e1, e2] at h1
      unfold roundHalfEven at h1
      rw [pow_zero, Nat.mul_one, Nat.one_mul] at h1
      have hlt : p / 2 ^ 971 < 2 ^ 53 := by omega
      by_cases hc : 2 ^ 971 < 2 * (p % 2 ^ 971) ∨
          2 * (p % 2 ^ 971) = 2 ^ 971 ∧ p / 2 ^ 971 % 2 = 1
      · have h1' : p / 2 ^ 971 + 1 = 2 ^ 53 := by
          rw [← h1]; exact (if_pos hc).symm
        omega
      · have h1' : p / 2 ^ 971 = 2 ^ 53 := by
          rw [← h1]; exact (if_neg hc).symm
        omega
    · exact ⟨_, _, rfl⟩
    · omega
    · exact ⟨_, _, rfl⟩

end Double

/-! ## Conversion of digit strings: helper lemmas -/

theorem isDigits_spec (d : List Char) (h : isDigits d = true) :
    (∀ c ∈ d, c.isDigit = true) ∧ d ≠ [] := by
  unfold isDigits at h
  simp only [Bool.and_eq_true, List.all_eq_true, Bool.not_eq_true', List.isEmpty_eq_false] at h
  exact h

theorem splitSign_digits (d : List Char) (h : ∀ c ∈ d, c.isDigit = true) :
    splitSign d = (false, d) := by
  cases d with
  | nil => rfl
  | cons c cs =>
    have hne := isDigit_not_special c (h c (List.mem_cons_self _ _))
    simp [splitSign, hne.1, hne.2.1]

theorem strtod_unsigned (neg : Bool) (s d : List Char) (hs : splitSign s = (neg, d))
    (h : isDigits d = true) : strtod s = some ⟨neg, digitsVal d, 0⟩ := by
  obtain ⟨hall, hne⟩ := isDigits_spec d h
  have ht : d.takeWhile Char.isDigit = d := List.takeWhile_eq_self_iff.2 hall
  have hd : d.dropWhile Char.isDigit = [] := List.dropWhile_eq_nil_iff.2 hall
  unfold strtod
  simp only [hs, ht, hd]
  simp [hne]

theorem strtod_digits (d : List Char) (h : isDigits d = true) :
    strtod d = some ⟨false, digitsVal d, 0⟩ :=
  strtod_unsigned false d d (splitSign_digits d (isDigits_spec d h).1) h

theorem strtod_signed (sg : Char) (d : List Char) (hsg : sg = '+' ∨ sg = '-')
    (h : isDigits d = true) :
    strtod (sg :: d) = some ⟨decide (sg = '-'), digitsVal d, 0⟩ := by
  apply strtod_unsigned _ _ d _ h
  rcases hsg with rfl | rfl <;> simp [splitSign]

theorem convertToDouble_of_strtod (s : List Char) (neg : Bool) (v : Nat)
    (h : strtod s = some ⟨neg, v, 0⟩) (hv : v < overflowThreshold) :
    convertToDouble s = some (Double.round neg v 1) := by
  obtain ⟨m, e, hme⟩ := Double.round_nat_finite neg v hv
  unfold convertToDouble
  rw [h]
  simp only [Decimal.toDouble, Int.toNat_zero, pow_zero, Nat.mul_one, neg_zero]
  rw [hme]

theorem convertToDouble_digits (d : List Char) (h : isDigits d = true)
    (hv : digitsVal d < overflowThreshold) :
    convertToDouble d = some (digitsToDouble false d) :=
  convertToDouble_of_strtod d false _ (strtod_digits d h) hv

theorem convertToDouble_signed (sg : Char) (d : List Char) (hsg : sg = '+' ∨ sg = '-')
    (h : isDigits d = true) (hv : digitsVal d < overflowThreshold) :
    convertToDouble (sg :: d) = some (digitsToDouble (decide (sg = '-')) d) :=
  convertToDouble_of_strtod (sg :: d) _ _ (strtod_signed sg d hsg h) hv

theorem isNumeral_digits (d : List Char) (h : isDigits d = true) : isNumeral d = true := by
  obtain ⟨hall, hne⟩ := isDigits_spec d h
  unfold isNumeral
  rw [splitSign_digits d hall]
  have hc : d.count '.' = 0 := by
    rw [List.count_eq_zero]
    intro hm
    exact (isDigit_not_special _ (hall _ hm)).2.2.1 rfl
  cases d with
  | nil => exact absurd rfl hne
  | cons c cs =>
    simp only [Bool.and_eq_true, List.all_eq_true, Bool.or_eq_true, decide_eq_true_eq,
      List.any_eq_true]
    refine ⟨⟨fun x hx => Or.inl (hall x hx), c, List.mem_cons_self _ _,
      hall c (List.mem_cons_self _ _)⟩, ?_⟩
    rw [hc]
    exact Nat.zero_le 1

theorem isNumeral_signed (sg : Char) (d : List Char) (hsg : sg = '+' ∨ sg = '-')
    (h : isDigits d = true) : isNumeral (sg :: d) = true := by
  have hd := isNumeral_digits d h
  obtain ⟨hall, _⟩ := isDigits_spec d h
  unfold isNumeral at hd ⊢
  rw [splitSign_digits d hall] at hd
  have hs : splitSign (sg :: d) = (decide (sg = '-'), d) := by
    rcases hsg with rfl | rfl <;> simp [splitSign]
  rw [hs]
  exact hd

/-! ## Fixed notation: helper lemmas -/

theorem digitChar_isDigit : ∀ d : Nat, d < 10 → (Nat.digitChar d).isDigit = true := by decide

theorem toDigitsCore_isDigit : ∀ (fuel n : Nat) (acc : List Char),
    (∀ c ∈ acc, c.isDigit = true) → ∀ c ∈ Nat.toDigitsCore 10 fuel n acc, c.isDigit = true := by
  intro fuel
  induction fuel with
  | zero => intro n acc h; simpa [Nat.toDigitsCore] using h
  | succ f ih =>
    intro n acc h
    have hacc : ∀ c ∈ Nat.digitChar (n % 10) :: acc, c.isDigit = true := by
      intro c hc
      rcases List.mem_cons.1 hc with rfl | hc
      · exact digitChar_isDigit _ (Nat.mod_lt _ (by norm_num))
      · exact h c hc
    unfold Nat.toDigitsCore
    simp only
    split_ifs
    · exact hacc
    · exact ih _ _ hacc

theorem repr_isDigit (n : Nat) : ∀ c ∈ (Nat.repr n).data, c.isDigit = true := by
  unfold Nat.repr Nat.toDigits
  simp only [List.asString]
  exact toDigitsCore_isDigit _ _ [] (by simp)

theorem toDigitsCore_ne_nil : ∀ (fuel n : Nat) (acc : List Char),
    acc ≠ [] → Nat.toDigitsCore 10 fuel n acc ≠ [] := by
  intro fuel
  induction fuel with
  | zero => intro n acc h; simpa [Nat.toDigitsCore] using h
  | succ f ih =>
    intro n acc _
    unfold Nat.toDigitsCore
    simp only
    split_ifs
    · simp
    · exact ih _ _ (by simp)

theorem repr_ne_nil (n : Nat) : (Nat.repr n).data ≠ [] := by
  unfold Nat.repr Nat.toDigits
  simp only [List.asString]
  unfold Nat.toDigitsCore
  simp only
  split_ifs
  · simp
  · exact toDigitsCore_ne_nil _ _ _ (by simp)

theorem fracDigits_spec (f : Nat) :
    (fracDigits f).length = 6 ∧ ∀ c ∈ fracDigits f, c.isDigit = true := by
  refine ⟨rfl, ?_⟩
  intro c hc
  simp only [fracDigits, List.map_cons, List.map_nil, List.mem_cons, List.mem_singleton,
    List.not_mem_nil, or_false] at hc
  rcases hc with rfl | rfl | rfl | rfl | rfl | rfl <;>
    exact digitChar_isDigit _ (Nat.mod_lt _ (by norm_num))

/-- A finite double is printed in fixed notation with six fractional digits. -/
theorem to_string_fin_fixedSix (s : Bool) (m : Nat) (e : Int) :
    FixedSix (to_string (Double.fin s m e)) := by
  refine ⟨_, _, to_string_fin_data s m e, ?_, ?_, (fracDigits_spec _).1, (fracDigits_spec _).2⟩
  · rw [String.data_append]
    intro hmem
    rcases List.mem_append.1 hmem with h | h
    · cases s <;> simp at h
    · have := repr_isDigit _ _ h
      revert this
      decide
  · rw [String.data_append]
    intro h
    exact repr_ne_nil _ (List.append_eq_nil.1 h).2

/-! ## Exact integer arithmetic: helper lemmas -/

namespace Double

theorem signed_neg (s : Bool) (m : Nat) : signed (!s) m = -signed s m := by
  cases s <;> simp [signed]

theorem signed_xor (s1 s2 : Bool) (m1 m2 : Nat) :
    signed (xor s1 s2) (m1 * m2) = signed s1 m1 * signed s2 m2 := by
  cases s1 <;> cases s2 <;> simp [signed]

theorem isInt_fin (s : Bool) (m : Nat) (e : Int) (z : Int) :
    IsInt (fin s m e) z ↔ signed s m * 2 ^ e.toNat = z * 2 ^ (-e).toNat := Iff.rfl

theorem isInt_neg (s : Bool) (m : Nat) (e : Int) (z : Int) (h : IsInt (fin s m e) z) :
    IsInt (neg (fin s m e)) (-z) := by
  rw [isInt_fin] at h
  show signed (!s) m * 2 ^ e.toNat = -z * 2 ^ (-e).toNat
  rw [signed_neg, neg_mul, neg_mul, h]

/-- Rounding an exact integer value `z * 2^e = R` is rounding `R`. -/
theorem roundScaled_exact (zneg : Bool) (z R : Int) (e : Int)
    (h : z * 2 ^ e.toNat = R * 2 ^ (-e).toNat) :
    roundScaled zneg z e =
      if R = 0 then fin zneg 0 (-1074) else round (decide (R < 0)) R.natAbs 1 := by
  have hp1 : (0 : Int) < 2 ^ e.toNat := by positivity
  have hp2 : (0 : Int) < 2 ^ (-e).toNat := by positivity
  unfold roundScaled
  by_cases hR : R = 0
  · have hz : z = 0 := by
      rw [hR, zero_mul] at h
      rcases mul_eq_zero.1 h with h0 | h0
      · exact h0
      · exact absurd h0 (ne_of_gt hp1)
    rw [if_pos hz, if_pos hR]
  · have hz : z ≠ 0 := by
      intro h0
      rw [h0, zero_mul] at h
      rcases mul_eq_zero.1 h.symm with h1 | h1
      · exact hR h1
      · exact absurd h1 (ne_of_gt hp2)
    rw [if_neg hz, if_neg hR]
    have hs : decide (z < 0) = decide (R < 0) := by
      congr 1
      apply propext
      constructor
      · intro hlt
        have : R * 2 ^ (-e).toNat < 0 := by
          rw [← h]; exact mul_neg_of_neg_of_pos hlt hp1
        exact neg_of_mul_neg_left this hp2.le
      · intro hlt
        have : z * 2 ^ e.toNat < 0 := by
          rw [h]; exact mul_neg_of_neg_of_pos hlt hp2
        exact neg_of_mul_neg_left this hp1.le
    have hn : z.natAbs * 2 ^ e.toNat = R.natAbs * 2 ^ (-e).toNat := by
      have := congrArg Int.natAbs h
      rw [Int.natAbs_mul, Int.natAbs_mul, Int.natAbs_pow, Int.natAbs_pow] at this
      exact this
    rw [hs, hn]
    exact round_mul_cancel _ _ _ (Int.natAbs_pos.2 hR) (Nat.pow_pos (by norm_num))

theorem scale_exact (v A : Int) (e1 e : Int) (hle : e ≤ e1)
    (h : v * 2 ^ e1.toNat = A * 2 ^ (-e1).toNat) :
    v * 2 ^ (e1 - e).toNat * 2 ^ e.toNat = A * 2 ^ (-e).toNat := by
  have hexp : (e1 - e).toNat + e.toNat + (-e1).toNat = e1.toNat + (-e).toNat := by omega
  have key : v * 2 ^ (e1 - e).toNat * 2 ^ e.toNat * 2 ^ (-e1).toNat =
      A * 2 ^ (-e).toNat * 2 ^ (-e1).toNat := by
    calc v * 2 ^ (e1 - e).toNat * 2 ^ e.toNat * 2 ^ (-e1).toNat
        = v * 2 ^ ((e1 - e).toNat + e.toNat + (-e1).toNat) := by ring
      _ = v * 2 ^ (e1.toNat + (-e).toNat) := by rw [hexp]
      _ = v * 2 ^ e1.toNat * 2 ^ (-e).toNat := by ring
      _ = A * 2 ^ (-e1).toNat * 2 ^ (-e).toNat := by rw [h]
      _ = A * 2 ^ (-e).toNat * 2 ^ (-e1).toNat := by ring
  exact mul_right_cancel₀ (pow_ne_zero _ (by norm_num)) key

/-- The sum of two doubles with integer values whose exact sum is `A + B`. -/
theorem add_exact (s1 s2 : Bool) (m1 m2 : Nat) (e1 e2 : Int) (A B : Int)
    (hx : IsInt (fin s1 m1 e1) A) (hy : IsInt (fin s2 m2 e2) B) :
    add (fin s1 m1 e1) (fin s2 m2 e2) =
      if A + B = 0 then fin (s1 && s2) 0 (-1074)
      else round (decide (A + B < 0)) (A + B).natAbs 1 := by
  rw [isInt_fin] at hx hy
  unfold add
  simp only
  apply roundScaled_exact
  rw [add_mul, add_mul, scale_exact _ A e1 _ (min_le_left e1 e2) hx,
    scale_exact _ B e2 _ (min_le_right e1 e2) hy]

/-- The product of two doubles with integer values. -/
theorem mul_exact (s1 s2 : Bool) (m1 m2 : Nat) (e1 e2 : Int) (A B : Int)
    (hx : IsInt (fin s1 m1 e1) A) (hy : IsInt (fin s2 m2 e2) B) :
    mul (fin s1 m1 e1) (fin s2 m2 e2) =
      if A * B = 0 then fin (xor s1 s2) 0 (-1074)
      else round (decide (A * B < 0)) (A * B).natAbs 1 := by
  rw [isInt_fin] at hx hy
  unfold mul
  simp only
  apply roundScaled_exact
  rw [signed_xor]
  have hexp : (e1 + e2).toNat + ((-e1).toNat + (-e2).toNat) =
      e1.toNat + e2.toNat + (-(e1 + e2)).toNat := by omega
  have key : signed s1 m1 * signed s2 m2 * 2 ^ (e1 + e2).toNat *
        2 ^ ((-e1).toNat + (-e2).toNat) =
      A * B * 2 ^ (-(e1 + e2)).toNat * 2 ^ ((-e1).toNat + (-e2).toNat) := by
    calc signed s1 m1 * signed s2 m2 * 2 ^ (e1 + e2).toNat * 2 ^ ((-e1).toNat + (-e2).toNat)
        = signed s1 m1 * signed s2 m2 *
            2 ^ ((e1 + e2).toNat + ((-e1).toNat + (-e2).toNat)) := by ring
      _ = signed s1 m1 * signed s2 m2 * 2 ^ (e1.toNat + e2.toNat + (-(e1 + e2)).toNat) := by
          rw [hexp]
      _ = (signed s1 m1 * 2 ^ e1.toNat) * (signed s2 m2 * 2 ^ e2.toNat) *
            2 ^ (-(e1 + e2)).toNat := by ring
      _ = (A * 2 ^ (-e1).toNat) * (B * 2 ^ (-e2).toNat) * 2 ^ (-(e1 + e2)).toNat := by
          rw [hx, hy]
      _ = A * B * 2 ^ (-(e1 + e2)).toNat * 2 ^ ((-e1).toNat + (-e2).toNat) := by ring
  exact mul_right_cancel₀ (pow_ne_zero _ (by norm_num)) key

theorem isInt_of_nat_eq (s : Bool) (m n : Nat) (e : Int)
    (h : m * 2 ^ e.toNat = n * 2 ^ (-e).toNat) : IsInt (fin s m e) (signed s n) := by
  rw [isInt_fin]
  have h' : (m : Int) * 2 ^ e.toNat = (n : Int) * 2 ^ (-e).toNat := by exact_mod_cast h
  cases s
  · simpa [signed] using h'
  · simp only [signed, if_true, neg_mul, h']

/-- A representable natural number is converted without rounding. -/
theorem round_representable (s : Bool) (n : Nat) (h : Representable n) :
    ∃ m e, round s n 1 = fin s m e ∧ IsInt (fin s m e) (signed s n) := by
  rcases Nat.lt_or_ge n (2 ^ 53) with hlt | hge
  · obtain ⟨k, hk⟩ := round_nat_rep s n hlt
    refine ⟨_, _, hk, isInt_of_nat_eq s _ n _ ?_⟩
    have e1 : (-(k : Int)).toNat = 0 := by simp
    have e2 : (-(-(k : Int))).toNat = k := by simp
    rw [e1, e2, pow_zero, Nat.mul_one]
  · obtain ⟨m, e, hm, he, hn⟩ := h
    have h0 : 0 < n := lt_of_lt_of_le (Nat.pow_pos (by norm_num)) hge
    have hspec := ilog2_spec n h0
    have hL1 : 53 ≤ ilog2 n := by
      by_contra hc
      have h1 : ilog2 n + 1 ≤ 53 := by omega
      have h2 : 2 ^ (ilog2 n + 1) ≤ 2 ^ 53 := Nat.pow_le_pow_right (by norm_num) h1
      omega
    obtain ⟨k, hk⟩ : ∃ k, ilog2 n = k + 52 := ⟨ilog2 n - 52, by omega⟩
    rw [hk] at hspec
    have hke : k ≤ e := by
      by_contra hc
      have h1 : 53 + e ≤ k + 52 := by omega
      have h2 : n < 2 ^ (53 + e) := by
        rw [hn, pow_add]
        exact Nat.mul_lt_mul_of_pos_right hm (Nat.pow_pos (by norm_num))
      have h3 : 2 ^ (53 + e) ≤ 2 ^ (k + 52) := Nat.pow_le_pow_right (by norm_num) h1
      omega
    have hu : ulpExp n 1 = (k : Int) := by
      unfold ulpExp
      have := floorLog2_nat n 1 h0 Nat.one_pos
      rw [Nat.mul_one] at this
      rw [this, hk]
      omega
    have e1 : (-(k : Int)).toNat = 0 := by simp
    have e2 : ((k : Int)).toNat = k := by simp
    obtain ⟨j, hj⟩ : ∃ j, e = j + k := ⟨e - k, by omega⟩
    have hsplit : n = m * 2 ^ j * 2 ^ k := by
      rw [hn, hj, pow_add, mul_assoc]
    have hM : m * 2 ^ j < 2 ^ 53 := by
      have h1 : m * 2 ^ j * 2 ^ k < 2 ^ 53 * 2 ^ k := by
        rw [← hsplit, ← pow_add]
        have : 53 + k = k + 52 + 1 := by omega
        rw [this]
        exact hspec.2
      exact Nat.lt_of_mul_lt_mul_right h1
    refine ⟨m * 2 ^ j, (k : Int), ?_, ?_⟩
    · apply round_fin s n 1 _ _ (Nat.pos_iff_ne_zero.1 h0) hu
      · rw [e1, e2, pow_zero, Nat.mul_one, Nat.one_mul]
        conv_lhs => rw [hsplit]
        exact roundHalfEven_exact _ _ (Nat.pow_pos (by norm_num))
      · exact Nat.ne_of_lt hM
      · omega
    · apply isInt_of_nat_eq
      rw [e1, e2, pow_zero, Nat.mul_one]
      exact hsplit.symm

theorem representable_of_le (n : Nat) (h : n ≤ 2 ^ 53) : Representable n := by
  rcases Nat.lt_or_ge n (2 ^ 53) with hlt | hge
  · exact ⟨n, 0, hlt, by norm_num, by simp⟩
  · have : n = 2 ^ 53 := le_antisymm h hge
    exact ⟨2 ^ 52, 1, by norm_num, by norm_num, by rw [this]; norm_num⟩

end Double

/-! ## Claims on numerals -/

theorem evaluateExpression_numerals (a b : List Char) (op : Char) (x y : Double)
    (ha : isNumeral a = true) (hb : isNumeral b = true) (ho : op ∈ operators)
    (hx : convertToDouble a = some x) (hy : convertToDouble b = some y) :
    evaluateExpression (String.mk (a ++ op :: b)) = to_string (compute x op y) :=
  evaluateExpression_of_tokens _ x y op (readTokens_numerals a b op x y ha hb ho hx hy) ho

theorem evaluateExpression_spaced (w0 w1 w2 a b : List Char) (op : Char) (x y : Double)
    (h0 : isSpaces w0 = true) (h1 : isSpaces w1 = true) (h2 : isSpaces w2 = true)
    (ha : isNumeral a = true) (hb : isNumeral b = true) (ho : op ∈ operators)
    (hx : convertToDouble a = some x) (hy : convertToDouble b = some y) :
    evaluateExpression (String.mk (w0 ++ a ++ w1 ++ op :: (w2 ++ b))) =
      to_string (compute x op y) :=
  evaluateExpression_of_tokens _ x y op
    (readTokens_spaced w0 w1 w2 a b op x y h0 h1 h2 ha hb ho hx hy) ho

theorem to_string_int_result (zneg : Bool) (R : Int) (h : R.natAbs < 2 ^ 53) :
    to_string (if R = 0 then Double.fin zneg 0 (-1074)
        else Double.round (decide (R < 0)) R.natAbs 1) =
      (if R < 0 ∨ (R = 0 ∧ zneg = true) then "-" else "") ++ Nat.repr R.natAbs ++
        ".000000" := by
  by_cases hR : R = 0
  · subst hR
    rw [if_pos rfl]
    have h0 : Double.fin zneg 0 (-1074) = Double.fin zneg (0 * 2 ^ 1074) (-((1074 : Nat) : Int)) := by
      rw [Nat.zero_mul]; rfl
    rw [h0, to_string_rep]
    cases zneg <;> simp
  · rw [if_neg hR]
    obtain ⟨k, hk⟩ := Double.round_nat_rep (decide (R < 0)) R.natAbs h
    rw [hk, to_string_rep]
    simp [hR]

/-- The printed result of `x op y` for doubles with integer values `A`, `B`
and an exact result below `2^53` in magnitude. -/
theorem compute_exact (op : Char) (ho : op = '+' ∨ op = '-' ∨ op = '*')
    (s1 s2 : Bool) (m1 m2 : Nat) (e1 e2 : Int) (A B : Int)
    (hx : Double.IsInt (Double.fin s1 m1 e1) A) (hy : Double.IsInt (Double.fin s2 m2 e2) B)
    (hr : (exactResult op A B).natAbs < 2 ^ 53) :
    to_string (compute (Double.fin s1 m1 e1) op (Double.fin s2 m2 e2)) =
      (if exactResult op A B < 0 ∨ (exactResult op A B = 0 ∧ negativeZero op s1 s2 = true)
        then "-" else "") ++ Nat.repr (exactResult op A B).natAbs ++ ".000000" := by
  rcases ho with rfl | rfl | rfl
  · have hc : compute (Double.fin s1 m1 e1) '+' (Double.fin s2 m2 e2) =
        Double.add (Double.fin s1 m1 e1) (Double.fin s2 m2 e2) := by
      simp [compute]
    have he : exactResult '+' A B = A + B := by simp [exactResult]
    have hz : negativeZero '+' s1 s2 = (s1 && s2) := by simp [negativeZero]
    rw [he] at hr
    rw [hc, he, hz, Double.add_exact s1 s2 m1 m2 e1 e2 A B hx hy]
    exact to_string_int_result _ _ hr
  · have hc : compute (Double.fin s1 m1 e1) '-' (Double.fin s2 m2 e2) =
        Double.add (Double.fin s1 m1 e1) (Double.fin (!s2) m2 e2) := by
      simp [compute, Double.sub, Double.neg]
    have he : exactResult '-' A B = A + -B := by
      simp [exactResult]; ring
    have hz : negativeZero '-' s1 s2 = (s1 && !s2) := by simp [negativeZero]
    rw [he] at hr
    rw [hc, he, hz, Double.add_exact s1 (!s2) m1 m2 e1 e2 A (-B) hx
      (Double.isInt_neg s2 m2 e2 B hy)]
    exact to_string_int_result _ _ hr
  · have hc : compute (Double.fin s1 m1 e1) '*' (Double.fin s2 m2 e2) =
        Double.mul (Double.fin s1 m1 e1) (Double.fin s2 m2 e2) := by
      simp [compute]
    have he : exactResult '*' A B = A * B := by simp [exactResult]
    have hz : negativeZero '*' s1 s2 = xor s1 s2 := by simp [negativeZero]
    rw [he] at hr
    rw [hc, he, hz, Double.mul_exact s1 s2 m1 m2 e1 e2 A B hx hy]
    exact to_string_int_result _ _ hr

theorem natAbs_signed (s : Bool) (v : Nat) : (Double.signed s v).natAbs = v := by
  cases s <;> simp [Double.signed]

theorem isNumeral_integer (a : List Char) (h : isInteger a = true) : isNumeral a = true := by
  unfold isInteger at h
  have hd := isNumeral_digits _ h
  obtain ⟨hall, _⟩ := isDigits_spec _ h
  unfold isNumeral at hd ⊢
  rw [splitSign_digits _ hall] at hd
  exact hd

/-- An integer numeral with a representable magnitude converts to the double
of exactly its value, with the sign of the numeral. -/
theorem convertToDouble_integer (a : List Char) (h : isInteger a = true)
    (hr : Representable (integerVal a).natAbs) :
    ∃ m e, convertToDouble a = some (Double.fin (splitSign a).1 m e) ∧
      Double.IsInt (Double.fin (splitSign a).1 m e) (integerVal a) := by
  unfold integerVal at hr ⊢
  rw [natAbs_signed] at hr
  obtain ⟨m, e, hme, hint⟩ := Double.round_representable (splitSign a).1 _ hr
  refine ⟨m, e, ?_, hint⟩
  have hs := strtod_unsigned (splitSign a).1 a (splitSign a).2 rfl h
  unfold convertToDouble
  rw [hs]
  simp only [Decimal.toDouble, Int.toNat_zero, pow_zero, Nat.mul_one, neg_zero]
  rw [hme]


/-- C10 (amended): for non-empty digit strings `d1`, `d2` whose values are
below `2^1024 - 2^970` (so that they convert to a finite double), an operator
`op` among `+ - * /` and a sign `sg`, `evaluateExpression (d1 ++ op ++ sg ++ d2)`
is not `"Err"`: the sign is consumed as the sign of the second operand and the
result is the formatted `d1 op (sg d2)`. -/
theorem sign_after_operator (d1 d2 : List Char) (op sg : Char)
    (h1 : isDigits d1 = true) (h2 : isDigits d2 = true) (ho : op ∈ operators)
    (hs : sg = '+' ∨ sg = '-')
    (v1 : digitsVal d1 < overflowThreshold) (v2 : digitsVal d2 < overflowThreshold) :
    evaluateExpression (String.mk (d1 ++ op :: sg :: d2)) =
        to_string (compute (digitsToDouble false d1) op (digitsToDouble (decide (sg = '-')) d2)) ∧
      evaluateExpression (String.mk (d1 ++ op :: sg :: d2)) ≠ "Err" := by
  have h := evaluateExpression_numerals d1 (sg :: d2) op _ _ (isNumeral_digits d1 h1)
    (isNumeral_signed sg d2 hs h2) ho (convertToDouble_digits d1 h1 v1)
    (convertToDouble_signed sg d2 hs h2 v2)
  refine ⟨h, ?_⟩
  rw [h]
  exact to_string_ne_err _

theorem sign_after_operator_witness :
    (evaluateExpression "5--3" = "8.000000" ∧ evaluateExpression "5--3" ≠ "Err") ∧
      (evaluateExpression "5*-3" = "-15.000000" ∧ evaluateExpression "5*-3" ≠ "Err") :=
  ⟨⟨(sign_after_operator ['5'] ['3'] '-' '-' (by decide) (by decide) (by decide)
        (by decide) (by decide!) (by decide!)).1.trans (by decide!),
      (sign_after_operator ['5'] ['3'] '-' '-' (by decide) (by decide) (by decide)
        (by decide) (by decide!) (by decide!)).2⟩,
    ⟨(sign_after_operator ['5'] ['3'] '*' '-' (by decide) (by decide) (by decide)
        (by decide) (by decide!) (by decide!)).1.trans (by decide!),
      (sign_after_operator ['5'] ['3'] '*' '-' (by decide) (by decide) (by decide)
        (by decide) (by decide!) (by decide!)).2⟩⟩

/-- C10 as stated fails: 309 nines, `+`, `+`, `1` are non-empty digit strings
around an operator and a sign, and the evaluation is `"Err"` (the first
operand is out of the range of `double`). -/
theorem sign_after_operator_overflow :
    isDigits (List.replicate 309 '9') = true ∧ isDigits ['1'] = true ∧
      evaluateExpression (String.mk (List.replicate 309 '9' ++ '+' :: '+' :: ['1'])) = "Err" := by
  decide!

/-- C2 (amended): for decimal numerals `a`, `b` (optional sign, digits with at
most one decimal point) that each convert to a finite double and `op` among
`+ - *`, with white space allowed before `a`, before `op` and before `b`,
`evaluateExpression` is `std::to_string` of the double-precision `a op b`,
never `"Err"`, and in fixed notation with exactly six fractional digits
whenever that result is finite; `"12+3"` and `"12 + 3"` give `"15.000000"`;
for integer operands, signed or not, that are doubles exactly (all those of
magnitude at most `2^53` are) and whose exact result has magnitude below
`2^53`, the output is that integer followed by `".000000"`, a minus sign in
front of a zero result exactly when the IEEE zero is negative. -/
theorem evaluate_sum_difference_product :
    (∀ (w0 w1 w2 a b : List Char) (op : Char) (x y : Double),
      isSpaces w0 = true → isSpaces w1 = true → isSpaces w2 = true →
      isNumeral a = true → isNumeral b = true → op = '+' ∨ op = '-' ∨ op = '*' →
      convertToDouble a = some x → convertToDouble b = some y →
      evaluateExpression (String.mk (w0 ++ a ++ w1 ++ op :: (w2 ++ b))) =
          to_string (compute x op y) ∧
        evaluateExpression (String.mk (w0 ++ a ++ w1 ++ op :: (w2 ++ b))) ≠ "Err" ∧
        (∀ s m e, compute x op y = Double.fin s m e →
          FixedSix (evaluateExpression (String.mk (w0 ++ a ++ w1 ++ op :: (w2 ++ b)))))) ∧
    (evaluateExpression "12+3" = "15.000000" ∧ evaluateExpression "12 + 3" = "15.000000") ∧
    (∀ (w0 w1 w2 a b : List Char) (op : Char),
      isSpaces w0 = true → isSpaces w1 = true → isSpaces w2 = true →
      isInteger a = true → isInteger b = true → op = '+' ∨ op = '-' ∨ op = '*' →
      Representable (integerVal a).natAbs → Representable (integerVal b).natAbs →
      (exactResult op (integerVal a) (integerVal b)).natAbs < 2 ^ 53 →
      evaluateExpression (String.mk (w0 ++ a ++ w1 ++ op :: (w2 ++ b))) =
        (if exactResult op (integerVal a) (integerVal b) < 0 ∨
            (exactResult op (integerVal a) (integerVal b) = 0 ∧
              negativeZero op (splitSign a).1 (splitSign b).1 = true)
          then "-" else "") ++
          Nat.repr (exactResult op (integerVal a) (integerVal b)).natAbs ++ ".000000") ∧
    (∀ n : Nat, n ≤ 2 ^ 53 → Representable n) := by
  have hop : ∀ op : Char, op = '+' ∨ op = '-' ∨ op = '*' → op ∈ operators := by
    intro op h
    rcases h with rfl | rfl | rfl <;> decide
  refine ⟨?_, ⟨by decide!, by decide!⟩, ?_, Double.representable_of_le⟩
  · intro w0 w1 w2 a b op x y h0 h1 h2 ha hb ho hx hy
    have h := evaluateExpression_spaced w0 w1 w2 a b op x y h0 h1 h2 ha hb (hop op ho) hx hy
    refine ⟨h, ?_, ?_⟩
    · rw [h]; exact to_string_ne_err _
    · intro s m e hfin
      rw [h, hfin]
      exact to_string_fin_fixedSix s m e
  · intro w0 w1 w2 a b op h0 h1 h2 ha hb ho ra rb hr
    obtain ⟨m1, e1, hx, ix⟩ := convertToDouble_integer a ha ra
    obtain ⟨m2, e2, hy, iy⟩ := convertToDouble_integer b hb rb
    have h := evaluateExpression_spaced w0 w1 w2 a b op _ _ h0 h1 h2 (isNumeral_integer a ha)
      (isNumeral_integer b hb) (hop op ho) hx hy
    rw [h]
    exact compute_exact op ho _ _ m1 m2 e1 e2 _ _ ix iy hr

theorem evaluate_sum_difference_product_witness :
    evaluateExpression "12.5 * -4" = "-50.000000" ∧
      evaluateExpression "-12 + 3" = "-9.000000" ∧
      evaluateExpression "9007199254740992-1" = "9007199254740991.000000" ∧
      evaluateExpression "0*-3" = "-0.000000" :=
  ⟨(evaluate_sum_difference_product.1 [] [' '] [' '] ['1', '2', '.', '5'] ['-', '4'] '*'
      (Double.fin false 7036874417766400 (-49)) (Double.fin true 4503599627370496 (-50))
      (by decide) (by decide) (by decide) (by decide) (by decide) (by decide)
      (by decide!) (by decide!)).1.trans (by decide!),
    (evaluate_sum_difference_product.2.2.1 [] [' '] [' '] ['-', '1', '2'] ['3'] '+'
      (by decide) (by decide) (by decide) (by decide) (by decide) (by decide)
      (evaluate_sum_difference_product.2.2.2 _ (by decide!))
      (evaluate_sum_difference_product.2.2.2 _ (by decide!)) (by decide!)).trans (by decide!),
    (evaluate_sum_difference_product.2.2.1 [] [] [] "9007199254740992".data ['1'] '-'
      (by decide) (by decide) (by decide) (by decide) (by decide) (by decide)
      (evaluate_sum_difference_product.2.2.2 _ (by decide!))
      (evaluate_sum_difference_product.2.2.2 _ (by decide!)) (by decide!)).trans (by decide!),
    (evaluate_sum_difference_product.2.2.1 [] [] [] ['0'] ['-', '3'] '*'
      (by decide) (by decide) (by decide) (by decide) (by decide) (by decide)
      (evaluate_sum_difference_product.2.2.2 _ (by decide!))
      (evaluate_sum_difference_product.2.2.2 _ (by decide!)) (by decide!)).trans (by decide!)⟩

/-- C2 as stated fails: an operand beyond the range of `double` gives
`"Err"`, an overflowing product is printed `"inf"`, an integer operand above
`2^53` is rounded before the subtraction, and a zero product with a negative
operand is printed `"-0.000000"`. -/
theorem evaluate_sum_difference_product_fails :
    evaluateExpression (String.mk (List.replicate 309 '9' ++ ['+', '1'])) = "Err" ∧
    evaluateExpression (String.mk ('1' :: List.replicate 308 '0' ++ ['*', '1', '0'])) = "inf" ∧
    evaluateExpression "9007199254740993-9007199254740992" = "0.000000" ∧
    evaluateExpression "0*-3" = "-0.000000" := by
  decide!


/-! ## Click handler: helper lemmas -/

theorem hit_iff (b : Button) (x y : Int) :
    hit b x y = true ↔
      b.rect.x ≤ x ∧ x ≤ b.rect.x + 80 ∧ b.rect.y ≤ y ∧ y ≤ b.rect.y + 80 := by
  simp [hit, BUTTON_WIDTH, BUTTON_HEIGHT, and_assoc]

theorem createButtons_apart : createButtons.Pairwise Apart := by decide

theorem not_hit_of_apart {a b : Button} {x y : Int} (h : Apart a b)
    (ha : hit a x y = true) : hit b x y = false := by
  rw [hit_iff] at ha
  rw [Bool.eq_false_iff, Ne, hit_iff]
  unfold Apart at h
  omega

theorem foldl_clickButton_miss (x y : Int) (bs : List Button) (st : State)
    (h : ∀ b ∈ bs, hit b x y = false) : bs.foldl (clickButton x y) st = st := by
  induction bs generalizing st with
  | nil => rfl
  | cons b bs ih =>
    have hb : hit b x y = false := h b (List.mem_cons_self _ _)
    rw [List.foldl_cons]
    have : clickButton x y st b = st := by simp [clickButton, hb]
    rw [this]
    exact ih st (fun b' hb' => h b' (List.mem_cons_of_mem _ hb'))

/-- Over a catalog with pairwise separated hit regions the loop of
`handleButtonClick` applies the body to the first button hit, and only to it. -/
theorem handleButtonClick_find (x y : Int) (bs : List Button) (st : State)
    (h : bs.Pairwise Apart) :
    handleButtonClick bs x y st =
      match bs.find? (fun b => hit b x y) with
      | none => st
      | some b => clickButton x y st b := by
  unfold handleButtonClick
  induction bs generalizing st with
  | nil => rfl
  | cons b bs ih =>
    rw [List.pairwise_cons] at h
    rw [List.foldl_cons, List.find?_cons]
    cases hb : hit b x y with
    | true =>
      simp only
      exact foldl_clickButton_miss x y bs _ (fun b' hb' => not_hit_of_apart (h.1 b' hb') hb)
    | false =>
      simp only
      have : clickButton x y st b = st := by simp [clickButton, hb]
      rw [this]
      exact ih st h.2

theorem resolveClick_eq (bs : List Button) (x y : Int) :
    resolveClick bs x y = bs.find? (fun b => hit b x y) := by
  unfold resolveClick
  congr 1
  funext b
  rw [Bool.eq_iff_iff, hit_iff]
  simp

theorem label_mem_labels : ∀ b ∈ createButtons, b.label ∈ labels := by decide

theorem clickButton_eq_transition (x y : Int) (st : State) (b : Button)
    (hb : b ∈ createButtons) (hh : hit b x y = true) :
    clickButton x y st b = transition b.label st := by
  have hl : b.label ∈ labels := label_mem_labels b hb
  simp only [labels, List.mem_cons, List.mem_singleton, List.not_mem_nil, or_false] at hl
  rcases hl with h | h | h | h | h | h | h | h | h | h | h | h | h | h | h | h <;>
    simp [clickButton, transition, hh, h, appendLabels]

/-- The handler over the catalog of `createButtons` is the controller step of
the specification. -/
theorem handleButtonClick_eq_clickSpec (x y : Int) (st : State) :
    handleButtonClick createButtons x y st = clickSpec createButtons x y st := by
  rw [handleButtonClick_find x y _ st createButtons_apart]
  unfold clickSpec
  rw [resolveClick_eq]
  cases hf : createButtons.find? (fun b => hit b x y) with
  | none => rfl
  | some b =>
    simp only
    exact clickButton_eq_transition x y st b (List.mem_of_find?_eq_some hf)
      (by simpa using List.find?_some hf)

theorem find_of_hit (x y : Int) (b : Button) (hb : b ∈ createButtons)
    (hh : hit b x y = true) : createButtons.find? (fun b => hit b x y) = some b := by
  have key : ∀ bs : List Button, bs.Pairwise Apart → b ∈ bs →
      bs.find? (fun b => hit b x y) = some b := by
    intro bs
    induction bs with
    | nil => intro _ h; cases h
    | cons a bs ih =>
      intro hp hm
      rw [List.pairwise_cons] at hp
      rw [List.find?_cons]
      rcases List.mem_cons.1 hm with rfl | hm
      · simp [hh]
      · have : hit a x y = false := by
          cases ha : hit a x y with
          | false => rfl
          | true =>
            have := not_hit_of_apart (hp.1 b hm) ha
            rw [hh] at this; cases this
        simp only [this]
        exact ih hp.2 hm
  exact key _ createButtons_apart hb

/-- A click that presses the button labelled `l` performs the transition of `l`. -/
theorem handleButtonClick_of_presses (l : String) (x y : Int) (st : State)
    (h : Presses l x y) :
    handleButtonClick createButtons x y st = transition l st ∧
      (resolveClick createButtons x y).map Button.label = some l := by
  obtain ⟨b, hb, hl, hh⟩ := h
  rw [handleButtonClick_eq_clickSpec]
  unfold clickSpec
  rw [resolveClick_eq, find_of_hit x y b hb hh]
  simp [hl]


theorem foldl_append_eq (ls : List String) (acc : String) :
    ls.foldl (fun a b => a ++ b) acc = acc ++ ls.foldl (fun a b => a ++ b) "" := by
  induction ls generalizing acc with
  | nil => simp
  | cons l ls ih =>
    rw [List.foldl_cons, List.foldl_cons, ih (acc ++ l), ih ("" ++ l)]
    simp [String.append_assoc]

theorem join_cons (l : String) (ls : List String) :
    String.join (l :: ls) = l ++ String.join ls := by
  unfold String.join
  rw [List.foldl_cons, foldl_append_eq]
  simp

theorem transition_append (l : String) (st : State) (h : l ∈ appendLabels) :
    transition l st = { input := st.input ++ l, result := st.result } := by
  simp [transition, h]

theorem button_layout : ∀ b ∈ createButtons, ∃ i, i < 16 ∧
    b.rect.x = 20 + 90 * ((i % 4 : Nat) : Int) ∧ b.rect.y = 150 + 90 * ((i / 4 : Nat) : Int) := by
  decide

theorem resultInv_step (st : State) (p : Option String) (x y : Int) (h : ResultInv st p) :
    ResultInv (handleButtonClick createButtons x y st)
      (match (resolveClick createButtons x y).map Button.label with
        | none => p
        | some l => if l = "=" then some st.input else if l = "C" then none else p) := by
  rw [handleButtonClick_eq_clickSpec]
  unfold clickSpec
  cases hr : resolveClick createButtons x y with
  | none => simpa using h
  | some b =>
    have hb : b ∈ createButtons := by
      rw [resolveClick_eq] at hr
      exact List.mem_of_find?_eq_some hr
    have hl := label_mem_labels b hb
    simp only [Option.map_some']
    by_cases he : b.label = "="
    · simp only [if_pos he]
      right
      have ht : transition b.label st =
          { input := st.input, result := evaluateExpression st.input } := by
        simp [transition, appendLabels, he]
      rw [ht]
      exact ⟨st.input, rfl, rfl, List.prefix_refl _⟩
    · by_cases hc : b.label = "C"
      · simp only [if_neg he, if_pos hc]
        left
        have ht : transition b.label st = { input := "", result := "" } := by
          simp [transition, appendLabels, hc]
        rw [ht]
        exact ⟨rfl, rfl⟩
      · have ha : b.label ∈ appendLabels := by
          simp only [labels, List.mem_cons, List.mem_singleton, List.not_mem_nil,
            or_false] at hl
          simp only [appendLabels, List.mem_cons, List.mem_singleton, List.not_mem_nil,
            or_false]
          tauto
        simp only [if_neg he, if_neg hc]
        rw [transition_append _ _ ha]
        rcases h with ⟨hp, hres⟩ | ⟨q, hp, hres, hpre⟩
        · left; exact ⟨hp, hres⟩
        · right
          refine ⟨q, hp, hres, ?_⟩
          simp only [String.data_append]
          exact hpre.trans (List.prefix_append _ _)

theorem resultInv_run (clicks : List (Int × Int)) (st : State) (p : Option String)
    (h : ResultInv st p) : ResultInv (run st clicks) (lastEvaluated st p clicks) := by
  induction clicks generalizing st p with
  | nil => simpa [run, lastEvaluated] using h
  | cons c cs ih =>
    unfold run lastEvaluated
    rw [List.foldl_cons]
    exact ih _ _ (resultInv_step st p c.1 c.2 h)

/-! ## Claims on the click controller -/

/-- C4: over the catalog built by `createButtons` (16 entries, entry `i` at
`rect.x = 20 + 90 * (i mod 4)`, `rect.y = 150 + 90 * (i div 4)`), for every
state and click point, `handleButtonClick` produces exactly the state obtained
by the single transition of the first catalog entry whose hit region
(inclusive on all four edges) contains the point; a click at `(100, 230)`
appends only `"7"`. -/
theorem handleButtonClick_refines_first_hit :
    (createButtons.length = 16 ∧
      ∀ i, i < 16 → (createButtons.get? i).map Button.rect =
        some ⟨20 + 90 * ((i % 4 : Nat) : Int), 150 + 90 * ((i / 4 : Nat) : Int), 80, 80⟩) ∧
    (∀ (x y : Int) (st : State),
      handleButtonClick createButtons x y st = clickSpec createButtons x y st) ∧
    (∀ st : State, handleButtonClick createButtons 100 230 st =
      { input := st.input ++ "7", result := st.result }) := by
  refine ⟨⟨by decide, by decide⟩, handleButtonClick_eq_clickSpec, fun st => ?_⟩
  have h := (handleButtonClick_of_presses "7" 100 230 st
    ⟨⟨⟨20, 150, 80, 80⟩, "7"⟩, by decide, rfl, by decide⟩).1
  rw [h, transition_append _ _ (by decide)]

/-- C5: in every state reachable from the initial state by a finite sequence
of clicks, either no `=` press is pending (none yet, or a `C` press since) and
ResultText is empty, or ResultText is `evaluateExpression p` for the content
`p` InputBuffer had at the most recent `=` press, with no `C` press since, and
`p` is a prefix of the current InputBuffer. -/
theorem result_is_last_evaluation (clicks : List (Int × Int)) :
    (lastEvaluated initialState none clicks = none ∧
        (run initialState clicks).result = "") ∨
      ∃ p, lastEvaluated initialState none clicks = some p ∧
        (run initialState clicks).result = evaluateExpression p ∧
        p.data <+: (run initialState clicks).input.data :=
  resultInv_run clicks initialState none (Or.inl ⟨rfl, rfl⟩)

/-- C6: from every state, a finite sequence of presses of digit and operator
buttons leaves InputBuffer equal to its former content followed by the pressed
labels in press order, and leaves ResultText unchanged. -/
theorem digit_operator_presses_concatenate (st : State) (clicks : List (Int × Int))
    (ls : List String)
    (h : List.Forall₂ (fun c l => l ∈ appendLabels ∧ Presses l c.1 c.2) clicks ls) :
    run st clicks = { input := st.input ++ String.join ls, result := st.result } := by
  induction h generalizing st with
  | nil => simp [run, String.join]
  | @cons c l cs ls hcl _ ih =>
    unfold run
    rw [List.foldl_cons, (handleButtonClick_of_presses l c.1 c.2 st hcl.2).1,
      transition_append _ _ hcl.1]
    have := ih { input := st.input ++ l, result := st.result }
    unfold run at this
    rw [this, join_cons, String.append_assoc]

theorem digit_operator_presses_concatenate_witness :
    run initialState [(30, 340), (120, 340), (300, 430), (210, 340)] =
      { input := "12+3", result := "" } :=
  digit_operator_presses_concatenate initialState
    [(30, 340), (120, 340), (300, 430), (210, 340)] ["1", "2", "+", "3"]
    (List.Forall₂.cons ⟨by decide, ⟨⟨⟨20, 330, 80, 80⟩, "1"⟩, by decide, rfl, by decide⟩⟩
      (List.Forall₂.cons ⟨by decide, ⟨⟨⟨110, 330, 80, 80⟩, "2"⟩, by decide, rfl, by decide⟩⟩
        (List.Forall₂.cons ⟨by decide, ⟨⟨⟨290, 420, 80, 80⟩, "+"⟩, by decide, rfl, by decide⟩⟩
          (List.Forall₂.cons
            ⟨by decide, ⟨⟨⟨200, 330, 80, 80⟩, "3"⟩, by decide, rfl, by decide⟩⟩
            List.Forall₂.nil))))

/-- C7: pressing `=` twice in a row gives ResultText `evaluateExpression i`
after each press and leaves InputBuffer `i` after each press. -/
theorem equals_twice_idempotent (st : State) (x1 y1 x2 y2 : Int)
    (h1 : Presses "=" x1 y1) (h2 : Presses "=" x2 y2) :
    handleButtonClick createButtons x1 y1 st =
        { input := st.input, result := evaluateExpression st.input } ∧
      handleButtonClick createButtons x2 y2 (handleButtonClick createButtons x1 y1 st) =
        handleButtonClick createButtons x1 y1 st := by
  have e : ∀ s : State, transition "=" s =
      { input := s.input, result := evaluateExpression s.input } := by
    intro s; simp [transition, appendLabels]
  rw [(handleButtonClick_of_presses "=" x1 y1 st h1).1,
    (handleButtonClick_of_presses "=" x2 y2 _ h2).1, e, e]
  exact ⟨rfl, rfl⟩

theorem equals_twice_idempotent_witness :
    handleButtonClick createButtons 240 460 ⟨"12+3", "Err"⟩ = ⟨"12+3", "15.000000"⟩ ∧
      handleButtonClick createButtons 200 500
          (handleButtonClick createButtons 240 460 ⟨"12+3", "Err"⟩) =
        handleButtonClick createButtons 240 460 ⟨"12+3", "Err"⟩ :=
  equals_twice_idempotent ⟨"12+3", "Err"⟩ 240 460 200 500
    ⟨⟨⟨200, 420, 80, 80⟩, "="⟩, by decide, rfl, by decide⟩
    ⟨⟨⟨200, 420, 80, 80⟩, "="⟩, by decide, rfl, by decide⟩

/-- C8: from every state, a click at a point with `20 ≤ x ≤ 100` and
`420 ≤ y ≤ 500` (the `C` button) yields empty InputBuffer and ResultText. -/
theorem clear_resets (st : State) (x y : Int)
    (hx : 20 ≤ x ∧ x ≤ 100) (hy : 420 ≤ y ∧ y ≤ 500) :
    handleButtonClick createButtons x y st = { input := "", result := "" } := by
  have hp : Presses "C" x y :=
    ⟨⟨⟨20, 420, 80, 80⟩, "C"⟩, by decide, rfl, by rw [hit_iff]; simp only; omega⟩
  rw [(handleButtonClick_of_presses "C" x y st hp).1]
  simp [transition, appendLabels]

theorem clear_resets_witness :
    handleButtonClick createButtons 100 420 ⟨"5 & 3", "Err"⟩ = { input := "", result := "" } :=
  clear_resets ⟨"5 & 3", "Err"⟩ 100 420 (by decide) (by decide)

/-- C9: a click at a point outside all 16 button rectangles (rectangle `i` has
origin `(20 + 90 * (i mod 4), 150 + 90 * (i div 4))`, width and height 80,
edges included) leaves InputBuffer and ResultText unchanged. -/
theorem click_outside_unchanged (st : State) (x y : Int)
    (h : ∀ i : Nat, i < 16 →
      ¬ (20 + 90 * ((i % 4 : Nat) : Int) ≤ x ∧ x ≤ 20 + 90 * ((i % 4 : Nat) : Int) + 80 ∧
         150 + 90 * ((i / 4 : Nat) : Int) ≤ y ∧ y ≤ 150 + 90 * ((i / 4 : Nat) : Int) + 80)) :
    handleButtonClick createButtons x y st = st := by
  apply foldl_clickButton_miss
  intro b hb
  obtain ⟨i, hi, hbx, hby⟩ := button_layout b hb
  rw [Bool.eq_false_iff, Ne, hit_iff, hbx, hby]
  exact h i hi

theorem click_outside_unchanged_witness :
    handleButtonClick createButtons 105 200 ⟨"12+3", "15.000000"⟩ = ⟨"12+3", "15.000000"⟩ :=
  click_outside_unchanged ⟨"12+3", "15.000000"⟩ 105 200 (by decide)

end Calc
